import Mathlib

/-!
Attestation verification policy (`pkg/cmd/attestation/verification/policy.go`)

A shallow embedding of the policy layer of the attestation verifier:

* `EnforcementCriteria.Valid` — the ordered guard checks on the criteria;
* `EnforcementCriteria.BuildPolicyInformation` — the human-readable rendering;
* `BuildDigestPolicyOption` — hex decoding of the artifact digest and the
  construction of the digest predicate.

Go `string` values are embedded as Lean `String` (text that is valid UTF-8);
the Go conversion `[]byte(s)` is the UTF-8 encoding of the string, every byte a
natural number below 256. A Go `error` result is an `Option String` carrying the message
(`none` is `nil`); `fmt.Sprintf` / `fmt.Errorf` with `%s` verbs is string
concatenation.
-/

namespace verification

/-! ## Data model -/

/-- represents the GitHub hosted runner in the certificate RunnerEnvironment extension -/
def GitHubRunner : String := "github-hosted"

/-- Modelled from the spec: `certificate.Summary` is declared by the external
verification engine (sigstore-go), not by this package. Per §3 it is a plain
record of facts of a signing certificate; only the four string fields read by
`policy.go` are kept. -/
structure certificate.Summary where
  Issuer : String
  RunnerEnvironment : String
  SourceRepositoryOwnerURI : String
  SourceRepositoryURI : String
  deriving DecidableEq, Repr

/-- The struct `EnforcementCriteria` of `policy.go`, field for field. -/
structure EnforcementCriteria where
  Certificate : certificate.Summary
  PredicateType : String
  SANRegex : String
  SAN : String
  deriving DecidableEq, Repr

/-! ## Validation -/

/-- The method `EnforcementCriteria.Valid`: a straight sequence of guards, each
returning its own error; `none` is the Go `nil` error. -/
def EnforcementCriteria.Valid (c : EnforcementCriteria) : Option String :=
  if c.Certificate.Issuer = "" then
    some "Issuer must be set"
  else if c.Certificate.RunnerEnvironment ≠ "" ∧ c.Certificate.RunnerEnvironment ≠ GitHubRunner then
    some ("RunnerEnvironment must be set to either \"\" or " ++ GitHubRunner)
  else if c.Certificate.SourceRepositoryOwnerURI = "" then
    some "SourceRepositoryOwnerURI must be set"
  else if c.PredicateType = "" then
    some "PredicateType must be set"
  else if c.SANRegex = "" ∧ c.SAN = "" then
    some "SANRegex or SAN must be set"
  else
    none

/-! ## Digest policy translator -/

/-- The Go conversion `[]byte(s)`: the UTF-8 bytes of a string, each as a natural
number below 256. -/
def bytesOf (s : String) : List Nat :=
  (s.data.flatMap String.utf8EncodeChar).map UInt8.toNat

namespace hex

/-- Modelled from the spec: the errors of Go's standard `encoding/hex`, whose source
is not part of this package. §4.1 and §7 name one error kind, the decoding error of a
malformed digest; the library distinguishes an invalid byte from an odd length. -/
inductive Error where
  | InvalidByteError (b : Nat)
  | ErrLength
  deriving DecidableEq, Repr

/-- Modelled from the spec: the digit table of Go's standard `encoding/hex`, whose
source is not part of this package. Per §4.1 the hexadecimal characters are `[0-9a-fA-F]`; each
maps to its value 0..15 and every other byte to `0xff`. -/
def reverseHexTable (b : Nat) : Nat :=
  if 48 ≤ b ∧ b ≤ 57 then b - 48
  else if 65 ≤ b ∧ b ≤ 70 then b - 65 + 10
  else if 97 ≤ b ∧ b ≤ 102 then b - 97 + 10
  else 0xff

/-- Modelled from the spec: `hex.Decode` of Go's standard `encoding/hex`, whose
source is not part of this package. Per §4.1 it decodes the hex text into raw bytes and fails when
the text is not valid hexadecimal (odd length, or a character outside
`[0-9a-fA-F]`). As in the library, the bytes are consumed two at a time from the
front, an invalid byte is reported before a bad length, and each output byte is
`(a << 4) | b` for the two digit values `a`, `b`. -/
def Decode : List Nat → Except Error (List Nat)
  | [] => .ok []
  | [p] =>
    if reverseHexTable p > 0x0f then .error (.InvalidByteError p) else .error .ErrLength
  | p :: q :: rest =>
    let a := reverseHexTable p
    let b := reverseHexTable q
    if a > 0x0f then .error (.InvalidByteError p)
    else if b > 0x0f then .error (.InvalidByteError q)
    else
      match Decode rest with
      | .ok out => .ok ((((a <<< 4) ||| b) % 256) :: out)
      | .error e => .error e

/-- Modelled from the spec: `hex.DecodeString` of Go's standard `encoding/hex`,
whose source is not part of this package: `hex.Decode` on the bytes of the string. The partial
output the library returns next to an error is dropped, as the caller drops it. -/
def DecodeString (s : String) : Except Error (List Nat) :=
  Decode (bytesOf s)

/-- Modelled from the spec: the digit alphabet of `hex.EncodeToString` of Go's
standard `encoding/hex`, whose source is not part of this package; §8 speaks of re-encoding the
decoded bytes as hex. The library writes lower-case digits. -/
def hextable : List Char := "0123456789abcdef".data

/-- Modelled from the spec: `hex.EncodeToString` of Go's standard `encoding/hex`,
whose source is not part of this package; §8 speaks of re-encoding the decoded bytes as hex. Each
byte `v` becomes the two digits `hextable[v >> 4]`, `hextable[v & 0x0f]`. -/
def EncodeToString (src : List Nat) : String :=
  String.mk (src.flatMap fun v => [hextable.getD (v >>> 4) '0', hextable.getD (v &&& 0x0f) '0'])

end hex

/-- Modelled from the spec: `artifact.DigestedArtifact` is declared in the
repository package `pkg/cmd/attestation/artifact`, whose source is not at hand. Per
§3 and §4.1 it exposes `Digest()`, the hex-encoded digest string, and
`Algorithm()`, the algorithm identifier string. -/
structure artifact.DigestedArtifact where
  Digest : String
  Algorithm : String
  deriving DecidableEq, Repr

/-- Modelled from the spec: `verify.ArtifactPolicyOption` is the opaque predicate
of the external verification engine (sigstore-go). Per §4.1 the
predicate is constructed from (algorithm, raw bytes); it is recorded as that pair. -/
structure verify.ArtifactPolicyOption where
  algorithm : String
  artifactDigest : List Nat
  deriving DecidableEq, Repr

/-- Modelled from the spec: `verify.WithArtifactDigest` of the external
verification engine (sigstore-go): the predicate built from the
algorithm identifier and the raw digest bytes. -/
def verify.WithArtifactDigest (algorithm : String) (artifactDigest : List Nat) : verify.ArtifactPolicyOption :=
  ⟨algorithm, artifactDigest⟩

/-- BuildDigestPolicyOption builds a verify.ArtifactPolicyOption
from the given artifact digest and digest algorithm -/
def BuildDigestPolicyOption (a : artifact.DigestedArtifact) : Except hex.Error verify.ArtifactPolicyOption :=
  -- sigstore-go expects the artifact digest to be decoded from hex
  match hex.DecodeString a.Digest with
  | .error err => .error err
  | .ok decoded => .ok (verify.WithArtifactDigest a.Algorithm decoded)

/-! ## Human-readable rendering -/

/-- The method `EnforcementCriteria.BuildPolicyInformation`: the template filled
with the predicate type, the issuer and the owner URI, then the conditional
`info +=` statements in source order. -/
def EnforcementCriteria.BuildPolicyInformation (c : EnforcementCriteria) : String :=
  let info :=
    "\nThe following policy criteria will be enforced against all attestations:" ++
    "\n- Attestation predicate type must match " ++ c.PredicateType ++
    "\n- Attestation must be signed by a certificate whose OIDC issuer matches " ++
      c.Certificate.Issuer ++
    "\n- Attestation must be associated with an artifact built in an organization whose URI is " ++
      c.Certificate.SourceRepositoryOwnerURI
  let info :=
    if c.Certificate.SourceRepositoryURI ≠ "" then
      info ++ ("\n- Attestation must be associated with an artifact built in a repository whose URI is " ++
        c.Certificate.SourceRepositoryURI)
    else info
  let info :=
    if c.Certificate.RunnerEnvironment = GitHubRunner then
      info ++ "\n- Attestation's signing certificate must be generated by an Action workflow executed in a GitHub hosted runner"
    else info
  let info :=
    if c.SAN ≠ "" then
      info ++ ("\n- Attestation's signing certificate must have a Subject Alternative Name matching the exact value " ++
        c.SAN)
    else if c.SANRegex ≠ "" then
      info ++ ("\n- Attestation's signing certificate must have a Subject Alternative Name matching the regex " ++
        c.SANRegex)
    else info
  info

/-! ### The lines of the rendering, as the specification quotes them -/

/-- The SAN-exact-match line for the value `san`. -/
def sanExactLine (san : String) : String :=
  "- Attestation's signing certificate must have a Subject Alternative Name matching the exact value " ++ san

/-- The SAN-regex line for the expression `sanRegex`. -/
def sanRegexLine (sanRegex : String) : String :=
  "- Attestation's signing certificate must have a Subject Alternative Name matching the regex " ++ sanRegex

/-- The criteria with both SAN fields emptied: the other fields are unchanged. -/
def EnforcementCriteria.withoutSAN (c : EnforcementCriteria) : EnforcementCriteria :=
  { c with SAN := "", SANRegex := "" }

/-- The header line of the rendering. -/
def headerLine : String :=
  "The following policy criteria will be enforced against all attestations:"

/-- The predicate-type line. -/
def predicateTypeLine (predicateType : String) : String :=
  "- Attestation predicate type must match " ++ predicateType

/-- The issuer line. -/
def issuerLine (issuer : String) : String :=
  "- Attestation must be signed by a certificate whose OIDC issuer matches " ++ issuer

/-- The owner-URI line. -/
def ownerURILine (ownerURI : String) : String :=
  "- Attestation must be associated with an artifact built in an organization whose URI is " ++
    ownerURI

/-- The source-repository-URI line. -/
def repositoryURILine (repositoryURI : String) : String :=
  "- Attestation must be associated with an artifact built in a repository whose URI is " ++
    repositoryURI

/-- The hosted-runner line. -/
def hostedRunnerLine : String :=
  "- Attestation's signing certificate must be generated by an Action workflow executed in a GitHub hosted runner"

/-- The lines the rendering writes, in the order it writes them: the four lines
of the template, then one line for each `info +=` statement that is executed. -/
def policyLines (c : EnforcementCriteria) : List String :=
  [headerLine, predicateTypeLine c.PredicateType, issuerLine c.Certificate.Issuer,
    ownerURILine c.Certificate.SourceRepositoryOwnerURI] ++
  (if c.Certificate.SourceRepositoryURI ≠ "" then
    [repositoryURILine c.Certificate.SourceRepositoryURI] else []) ++
  (if c.Certificate.RunnerEnvironment = "github-hosted" then [hostedRunnerLine] else []) ++
  (if c.SAN ≠ "" then [sanExactLine c.SAN]
    else if c.SANRegex ≠ "" then [sanRegexLine c.SANRegex] else [])

/-- The text made of the given lines, each preceded by a line break. -/
def renderLines : List String → String
  | [] => ""
  | l :: ls => "\n" ++ l ++ renderLines ls

/-- The kinds of line of the rendering. -/
inductive LineKind where
  | header
  | predicateType
  | issuer
  | ownerURI
  | repositoryURI
  | hostedRunner
  | sanExact
  | sanRegex
  deriving DecidableEq, Repr

/-- The kind of a line, read off the fixed text it opens with: the characters at
the positions where the opening texts of the eight kinds differ. -/
def lineKind (l : String) : LineKind :=
  if l.data[0]? = some 'T' then .header
  else if l.data[13]? = some ' ' then
    if l.data[14]? = some 'p' then .predicateType
    else if l.data[22]? = some 's' then .issuer
    else if l.data[60]? = some 'n' then .ownerURI
    else .repositoryURI
  else if l.data[41]? = some 'b' then .hostedRunner
  else if l.data[86]? = some 'e' then .sanExact
  else .sanRegex

/-! ### The rendering read back as text -/

/-- The lines of a text: the pieces between its line breaks. -/
def textLines (text : String) : List String :=
  (text.data.splitOn '\n').map String.mk

/-- A text contains a line when the line is one of its lines. -/
def containsLine (text line : String) : Prop :=
  line ∈ textLines text

instance containsLine.decidable (text line : String) : Decidable (containsLine text line) :=
  inferInstanceAs (Decidable (line ∈ textLines text))

/-- No field value that the rendering prints contains a line break. -/
def singleLineFields (c : EnforcementCriteria) : Prop :=
  ∀ f ∈ [c.PredicateType, c.Certificate.Issuer, c.Certificate.SourceRepositoryOwnerURI,
    c.Certificate.SourceRepositoryURI, c.SAN, c.SANRegex], '\n' ∉ f.data

instance singleLineFields.decidable (c : EnforcementCriteria) : Decidable (singleLineFields c) :=
  inferInstanceAs (Decidable (∀ f ∈ [c.PredicateType, c.Certificate.Issuer,
    c.Certificate.SourceRepositoryOwnerURI, c.Certificate.SourceRepositoryURI, c.SAN,
    c.SANRegex], '\n' ∉ f.data))

/-! ### Hexadecimal text, in the words of §4.1 -/

/-- The hexadecimal characters `[0-9a-fA-F]`. -/
def isHexChar (c : Char) : Prop :=
  c ∈ "0123456789abcdefABCDEF".data

instance isHexChar.decidable (c : Char) : Decidable (isHexChar c) :=
  inferInstanceAs (Decidable (c ∈ "0123456789abcdefABCDEF".data))

/-- Valid hexadecimal text: even length and only characters of `[0-9a-fA-F]`. -/
def ValidHex (s : String) : Prop :=
  s.length % 2 = 0 ∧ ∀ c ∈ s.data, isHexChar c

instance ValidHex.decidable (s : String) : Decidable (ValidHex s) :=
  inferInstanceAs (Decidable (s.length % 2 = 0 ∧ ∀ c ∈ s.data, isHexChar c))

/-- The value of a hexadecimal digit: `0`..`9` are 0..9, `a`..`f` and `A`..`F`
are 10..15. -/
def hexval (c : Char) : Nat :=
  if c.isDigit then c.toNat - '0'.toNat
  else if c.isLower then c.toNat - 'a'.toNat + 10
  else c.toNat - 'A'.toNat + 10

/-! ### The requirements of §4.2, as the specification numbers them -/

/-- Requirement number `k` of §4.2 (1 to 5), in the words of the specification.
Numbers outside 1..5 name no requirement and hold vacuously. -/
def requirement (c : EnforcementCriteria) : Nat → Prop
  | 1 => c.Certificate.Issuer ≠ ""
  | 2 => c.Certificate.RunnerEnvironment = "" ∨ c.Certificate.RunnerEnvironment = "github-hosted"
  | 3 => c.Certificate.SourceRepositoryOwnerURI ≠ ""
  | 4 => c.PredicateType ≠ ""
  | 5 => c.SANRegex ≠ "" ∨ c.SAN ≠ ""
  | _ => True

instance requirement.decidable (c : EnforcementCriteria) (k : Nat) : Decidable (requirement c k) :=
  match k with
  | 0 => isTrue trivial
  | 1 => inferInstanceAs (Decidable (c.Certificate.Issuer ≠ ""))
  | 2 => inferInstanceAs (Decidable
      (c.Certificate.RunnerEnvironment = "" ∨ c.Certificate.RunnerEnvironment = "github-hosted"))
  | 3 => inferInstanceAs (Decidable (c.Certificate.SourceRepositoryOwnerURI ≠ ""))
  | 4 => inferInstanceAs (Decidable (c.PredicateType ≠ ""))
  | 5 => inferInstanceAs (Decidable (c.SANRegex ≠ "" ∨ c.SAN ≠ ""))
  | _ + 6 => isTrue trivial

/-- The error text the code attaches to the guard of requirement number `k`. -/
def requirementMessage : Nat → String
  | 1 => "Issuer must be set"
  | 2 => "RunnerEnvironment must be set to either \"\" or github-hosted"
  | 3 => "SourceRepositoryOwnerURI must be set"
  | 4 => "PredicateType must be set"
  | 5 => "SANRegex or SAN must be set"
  | _ => ""

/-- The example criteria of §8: issuer, owner URI, predicate type and an exact
SAN are set, everything else is empty. -/
def exampleCriteria : EnforcementCriteria where
  Certificate :=
    { Issuer := "https://issuer.example"
      RunnerEnvironment := ""
      SourceRepositoryOwnerURI := "https://github.com/acme"
      SourceRepositoryURI := "" }
  PredicateType := "https://slsa.dev/provenance/v1"
  SANRegex := ""
  SAN := "https://github.com/acme/repo/.github/workflows/build.yml@refs/heads/main"

/-- Valid criteria whose owner URI carries a line break followed by the text of a
regex line. -/
def sanInjectionCriteria : EnforcementCriteria where
  Certificate :=
    { Issuer := "https://issuer.example"
      RunnerEnvironment := ""
      SourceRepositoryOwnerURI := "https://github.com/acme\n" ++ sanRegexLine "y"
      SourceRepositoryURI := "" }
  PredicateType := "https://slsa.dev/provenance/v1"
  SANRegex := "y"
  SAN := "s"

/-- The example criteria with a `SAN` that carries a line break followed by the
text of a repository-URI line. -/
def repositoryInjectionCriteria : EnforcementCriteria :=
  { exampleCriteria with SAN := "x\n" ++ repositoryURILine "" }

/-- The example criteria with a `SAN` that ends in a line break. -/
def trailingNewlineCriteria : EnforcementCriteria :=
  { exampleCriteria with SAN := "abc\n" }

/-! ## Lemmas: validation -/

/-- Criteria passing every guard are accepted. -/
theorem Valid_none_of_guards (c : EnforcementCriteria)
    (h1 : c.Certificate.Issuer ≠ "")
    (h2 : c.Certificate.RunnerEnvironment = "" ∨ c.Certificate.RunnerEnvironment = GitHubRunner)
    (h3 : c.Certificate.SourceRepositoryOwnerURI ≠ "")
    (h4 : c.PredicateType ≠ "")
    (h5 : c.SANRegex ≠ "" ∨ c.SAN ≠ "") : c.Valid = none := by
  unfold EnforcementCriteria.Valid
  rw [if_neg h1, if_neg (fun h => h2.elim h.1 h.2), if_neg h3, if_neg h4,
    if_neg (fun h => h5.elim (fun g => g h.1) (fun g => g h.2))]

/-- Accepted criteria have `SANRegex` or `SAN` set. -/
theorem san_set_of_Valid (c : EnforcementCriteria) (h : c.Valid = none) :
    c.SANRegex ≠ "" ∨ c.SAN ≠ "" := by
  unfold EnforcementCriteria.Valid at h
  split_ifs at h with _ _ _ _ h5
  by_contra hc
  exact h5 ⟨by_contra fun e => hc (Or.inl e), by_contra fun e => hc (Or.inr e)⟩

/-! ## Theorems: validation -/

/-- C1: `Valid` returns no error exactly when all five conditions hold: the
issuer is set, the runner environment is empty or `github-hosted`, the owner URI
is set, the predicate type is set, and one of `SANRegex`, `SAN` is set. -/
theorem Valid_eq_none_iff (c : EnforcementCriteria) :
    c.Valid = none ↔
      c.Certificate.Issuer ≠ "" ∧
      (c.Certificate.RunnerEnvironment = "" ∨ c.Certificate.RunnerEnvironment = "github-hosted") ∧
      c.Certificate.SourceRepositoryOwnerURI ≠ "" ∧
      c.PredicateType ≠ "" ∧
      (c.SANRegex ≠ "" ∨ c.SAN ≠ "") := by
  unfold EnforcementCriteria.Valid GitHubRunner
  constructor
  · intro h
    split_ifs at h with h1 h2 h3 h4 h5
    refine ⟨h1, ?_, h3, h4, ?_⟩
    · by_contra hc
      exact h2 ⟨fun e => hc (Or.inl e), fun e => hc (Or.inr e)⟩
    · by_contra hc
      exact h5 ⟨by_contra fun e => hc (Or.inl e), by_contra fun e => hc (Or.inr e)⟩
  · rintro ⟨h1, h2, h3, h4, h5⟩
    rw [if_neg h1, if_neg, if_neg h3, if_neg h4, if_neg]
    · rintro ⟨a, b⟩
      rcases h5 with h | h
      · exact h a
      · exact h b
    · rintro ⟨a, b⟩
      rcases h2 with h | h
      · exact a h
      · exact b h

/-- C2: `Valid` is first-failure-wins in the order Issuer, RunnerEnvironment,
SourceRepositoryOwnerURI, PredicateType, SAN/SANRegex: when requirement number
`k` is violated and every lower-numbered requirement holds, the error returned is
the message of requirement `k`, whatever the later fields are. -/
theorem Valid_first_failure (c : EnforcementCriteria) (k : Nat) (hk1 : 1 ≤ k) (hk5 : k ≤ 5)
    (hviol : ¬ requirement c k) (hlow : ∀ j, 1 ≤ j → j < k → requirement c j) :
    c.Valid = some (requirementMessage k) := by
  have low : ∀ j, 1 ≤ j → j < k → requirement c j := hlow
  unfold EnforcementCriteria.Valid GitHubRunner
  interval_cases k
  · have h1 : c.Certificate.Issuer = "" := by
      simpa [requirement] using hviol
    rw [if_pos h1]
    rfl
  · have h1 : c.Certificate.Issuer ≠ "" := low 1 (by norm_num) (by norm_num)
    have h2 : c.Certificate.RunnerEnvironment ≠ "" ∧
        c.Certificate.RunnerEnvironment ≠ "github-hosted" := by
      simpa [requirement, not_or] using hviol
    rw [if_neg h1, if_pos h2]
    rfl
  · have h1 : c.Certificate.Issuer ≠ "" := low 1 (by norm_num) (by norm_num)
    have h2 : c.Certificate.RunnerEnvironment = "" ∨
        c.Certificate.RunnerEnvironment = "github-hosted" := low 2 (by norm_num) (by norm_num)
    have h3 : c.Certificate.SourceRepositoryOwnerURI = "" := by
      simpa [requirement] using hviol
    rw [if_neg h1, if_neg (fun h => h2.elim h.1 h.2), if_pos h3]
    rfl
  · have h1 : c.Certificate.Issuer ≠ "" := low 1 (by norm_num) (by norm_num)
    have h2 : c.Certificate.RunnerEnvironment = "" ∨
        c.Certificate.RunnerEnvironment = "github-hosted" := low 2 (by norm_num) (by norm_num)
    have h3 : c.Certificate.SourceRepositoryOwnerURI ≠ "" := low 3 (by norm_num) (by norm_num)
    have h4 : c.PredicateType = "" := by
      simpa [requirement] using hviol
    rw [if_neg h1, if_neg (fun h => h2.elim h.1 h.2), if_neg h3, if_pos h4]
    rfl
  · have h1 : c.Certificate.Issuer ≠ "" := low 1 (by norm_num) (by norm_num)
    have h2 : c.Certificate.RunnerEnvironment = "" ∨
        c.Certificate.RunnerEnvironment = "github-hosted" := low 2 (by norm_num) (by norm_num)
    have h3 : c.Certificate.SourceRepositoryOwnerURI ≠ "" := low 3 (by norm_num) (by norm_num)
    have h4 : c.PredicateType ≠ "" := low 4 (by norm_num) (by norm_num)
    have h5 : c.SANRegex = "" ∧ c.SAN = "" := by
      simpa [requirement, not_or] using hviol
    rw [if_neg h1, if_neg (fun h => h2.elim h.1 h.2), if_neg h3, if_neg h4, if_pos h5]
    rfl

/-- Witness for C2: criteria violating requirements 2, 3, 4 and 5 at once (only
the issuer is acceptable) are rejected with the message of requirement 2. -/
theorem Valid_first_failure_witness :
    ¬ requirement ⟨⟨"https://issuer.example", "self-hosted", "", ""⟩, "", "", ""⟩ 2 ∧
    ¬ requirement ⟨⟨"https://issuer.example", "self-hosted", "", ""⟩, "", "", ""⟩ 3 ∧
    ¬ requirement ⟨⟨"https://issuer.example", "self-hosted", "", ""⟩, "", "", ""⟩ 4 ∧
    ¬ requirement ⟨⟨"https://issuer.example", "self-hosted", "", ""⟩, "", "", ""⟩ 5 ∧
    EnforcementCriteria.Valid ⟨⟨"https://issuer.example", "self-hosted", "", ""⟩, "", "", ""⟩ =
      some "RunnerEnvironment must be set to either \"\" or github-hosted" :=
  ⟨by decide, by decide, by decide, by decide,
    Valid_first_failure ⟨⟨"https://issuer.example", "self-hosted", "", ""⟩, "", "", ""⟩ 2
      (by decide) (by decide) (by decide)
      (fun j h1 h2 => by
        have hj : j = 1 := by omega
        subst hj
        decide)⟩

/-- C3: criteria that violate exactly one of the conditions on the issuer, the
owner URI, the predicate type or SAN/SANRegex, and satisfy the other four, are
rejected with exactly the message of that condition; the example criteria with
`SAN` and `SANRegex` both empty are rejected with `SANRegex or SAN must be set`. -/
theorem Valid_single_violation (c : EnforcementCriteria) :
    (¬ requirement c 1 → requirement c 2 → requirement c 3 → requirement c 4 → requirement c 5 →
      c.Valid = some "Issuer must be set") ∧
    (requirement c 1 → requirement c 2 → ¬ requirement c 3 → requirement c 4 → requirement c 5 →
      c.Valid = some "SourceRepositoryOwnerURI must be set") ∧
    (requirement c 1 → requirement c 2 → requirement c 3 → ¬ requirement c 4 → requirement c 5 →
      c.Valid = some "PredicateType must be set") ∧
    (requirement c 1 → requirement c 2 → requirement c 3 → requirement c 4 → ¬ requirement c 5 →
      c.Valid = some "SANRegex or SAN must be set") ∧
    EnforcementCriteria.Valid { exampleCriteria with SAN := "", SANRegex := "" } =
      some "SANRegex or SAN must be set" := by
  refine ⟨?_, ?_, ?_, ?_, by decide⟩
  · intro h1 _ _ _ _
    have e : c.Certificate.Issuer = "" := by simpa [requirement] using h1
    simp [EnforcementCriteria.Valid, e]
  · intro h1 h2 h3 _ _
    have e3 : c.Certificate.SourceRepositoryOwnerURI = "" := by simpa [requirement] using h3
    unfold EnforcementCriteria.Valid GitHubRunner
    rw [if_neg h1, if_neg (fun h => h2.elim h.1 h.2), if_pos e3]
  · intro h1 h2 h3 h4 _
    have e4 : c.PredicateType = "" := by simpa [requirement] using h4
    unfold EnforcementCriteria.Valid GitHubRunner
    rw [if_neg h1, if_neg (fun h => h2.elim h.1 h.2), if_neg h3, if_pos e4]
  · intro h1 h2 h3 h4 h5
    have e5 : c.SANRegex = "" ∧ c.SAN = "" := by simpa [requirement, not_or] using h5
    unfold EnforcementCriteria.Valid GitHubRunner
    rw [if_neg h1, if_neg (fun h => h2.elim h.1 h.2), if_neg h3, if_neg h4, if_pos e5]

/-- Witness for C3: the example criteria with `SAN` and `SANRegex` emptied violate
only the fifth condition and are rejected with its message. -/
theorem Valid_single_violation_witness :
    requirement { exampleCriteria with SAN := "", SANRegex := "" } 1 ∧
    requirement { exampleCriteria with SAN := "", SANRegex := "" } 2 ∧
    requirement { exampleCriteria with SAN := "", SANRegex := "" } 3 ∧
    requirement { exampleCriteria with SAN := "", SANRegex := "" } 4 ∧
    ¬ requirement { exampleCriteria with SAN := "", SANRegex := "" } 5 ∧
    EnforcementCriteria.Valid { exampleCriteria with SAN := "", SANRegex := "" } =
      some "SANRegex or SAN must be set" :=
  ⟨by decide, by decide, by decide, by decide, by decide,
    (Valid_single_violation { exampleCriteria with SAN := "", SANRegex := "" }).2.2.2.1
      (by decide) (by decide) (by decide) (by decide) (by decide)⟩

/-- C4, as stated, fails: with the issuer set and the runner environment
`self-hosted`, `Valid` does not return the text `RunnerEnvironment must be set to
either empty or the hosted-runner identifier`; the text the code returns is
`RunnerEnvironment must be set to either "" or github-hosted`. -/
theorem Valid_runnerEnvironment_message_counterexample :
    (exampleCriteria.Certificate.Issuer ≠ "" ∧
      ("self-hosted" : String) ≠ "" ∧ ("self-hosted" : String) ≠ GitHubRunner) ∧
    EnforcementCriteria.Valid
        { exampleCriteria with
          Certificate := { exampleCriteria.Certificate with RunnerEnvironment := "self-hosted" } } ≠
      some "RunnerEnvironment must be set to either empty or the hosted-runner identifier" ∧
    EnforcementCriteria.Valid
        { exampleCriteria with
          Certificate := { exampleCriteria.Certificate with RunnerEnvironment := "self-hosted" } } =
      some "RunnerEnvironment must be set to either \"\" or github-hosted" := by
  decide

/-- C4 (amended): for every criteria whose issuer is set and whose runner
environment is neither empty nor exactly `github-hosted`, `Valid` fails with the
message `RunnerEnvironment must be set to either "" or github-hosted`. -/
theorem Valid_runnerEnvironment_rejected (c : EnforcementCriteria)
    (hIssuer : c.Certificate.Issuer ≠ "")
    (hne : c.Certificate.RunnerEnvironment ≠ "")
    (hrunner : c.Certificate.RunnerEnvironment ≠ GitHubRunner) :
    c.Valid = some "RunnerEnvironment must be set to either \"\" or github-hosted" := by
  unfold EnforcementCriteria.Valid
  rw [if_neg hIssuer, if_pos ⟨hne, hrunner⟩]
  rfl

/-- Witness for C4 (amended): the example criteria with runner environment
`self-hosted`. -/
theorem Valid_runnerEnvironment_rejected_witness :
    EnforcementCriteria.Valid
        { exampleCriteria with
          Certificate := { exampleCriteria.Certificate with RunnerEnvironment := "self-hosted" } } =
      some "RunnerEnvironment must be set to either \"\" or github-hosted" :=
  Valid_runnerEnvironment_rejected
    { exampleCriteria with
      Certificate := { exampleCriteria.Certificate with RunnerEnvironment := "self-hosted" } }
    (by decide) (by decide) (by decide)

/-- C5: the runner environment check accepts exactly two values. For criteria
satisfying the other four conditions, `Valid` returns no error when the runner
environment is `""` or `github-hosted` and returns an error for every other
string; replacing the runner environment by `GitHub-hosted` or by
`github-hosted ` (trailing blank) yields an error. -/
theorem Valid_runnerEnvironment_exact (c : EnforcementCriteria)
    (h1 : c.Certificate.Issuer ≠ "")
    (h3 : c.Certificate.SourceRepositoryOwnerURI ≠ "")
    (h4 : c.PredicateType ≠ "")
    (h5 : c.SANRegex ≠ "" ∨ c.SAN ≠ "") :
    (c.Certificate.RunnerEnvironment = "" ∨ c.Certificate.RunnerEnvironment = "github-hosted" →
      c.Valid = none) ∧
    (c.Certificate.RunnerEnvironment ≠ "" → c.Certificate.RunnerEnvironment ≠ "github-hosted" →
      ∃ msg, c.Valid = some msg) ∧
    (∃ msg, EnforcementCriteria.Valid
      { c with Certificate := { c.Certificate with RunnerEnvironment := "GitHub-hosted" } } =
        some msg) ∧
    (∃ msg, EnforcementCriteria.Valid
      { c with Certificate := { c.Certificate with RunnerEnvironment := "github-hosted " } } =
        some msg) := by
  have rej : ∀ r : String, r ≠ "" → r ≠ "github-hosted" →
      EnforcementCriteria.Valid
        { c with Certificate := { c.Certificate with RunnerEnvironment := r } } =
        some ("RunnerEnvironment must be set to either \"\" or " ++ GitHubRunner) := by
    intro r hr hg
    unfold EnforcementCriteria.Valid GitHubRunner
    rw [if_neg h1, if_pos ⟨hr, hg⟩]
  refine ⟨fun h => Valid_none_of_guards c h1 h h3 h4 h5, fun hr hg => ⟨_, rej _ hr hg⟩,
    ⟨_, rej "GitHub-hosted" (by decide) (by decide)⟩,
    ⟨_, rej "github-hosted " (by decide) (by decide)⟩⟩

/-- Witness for C5: the example criteria satisfy the other four conditions; with
the empty runner environment they are accepted, with `GitHub-hosted` rejected. -/
theorem Valid_runnerEnvironment_exact_witness :
    exampleCriteria.Valid = none ∧
    ∃ msg, EnforcementCriteria.Valid
      { exampleCriteria with
        Certificate := { exampleCriteria.Certificate with RunnerEnvironment := "GitHub-hosted" } } =
        some msg :=
  ⟨(Valid_runnerEnvironment_exact exampleCriteria
      (by decide) (by decide) (by decide) (by decide)).1 (Or.inl rfl),
    (Valid_runnerEnvironment_exact exampleCriteria
      (by decide) (by decide) (by decide) (by decide)).2.2.1⟩

/-! ## Lemmas: bytes of a string -/

/-- The last byte of a multi-byte UTF-8 sequence has its top bit set. -/
theorem continuation_byte_ge (x : UInt8) : 128 ≤ (x &&& 63 ||| 128).toNat := by
  show 128 ≤ (x.toBitVec &&& 63#8 ||| 128#8).toNat
  rw [BitVec.toNat_or]
  apply Nat.testBit_implies_ge (i := 7)
  rw [Nat.testBit_or]
  have h7 : (BitVec.toNat 128#8).testBit 7 = true := by decide
  rw [h7]
  simp

/-- An ASCII character is encoded as the single byte of its code. -/
theorem utf8EncodeChar_ascii (c : Char) (h : c.toNat ≤ 127) :
    (String.utf8EncodeChar c).map UInt8.toNat = [c.toNat] := by
  have hv : c.val ≤ 127 := h
  have e : String.utf8EncodeChar c = [c.val.toUInt8] := by
    simp [String.utf8EncodeChar, hv]
  rw [e]
  have hn : (c.val.toUInt8).toNat = c.toNat := by
    show (BitVec.ofNat 8 c.val.toNat).toNat = c.val.toNat
    rw [BitVec.toNat_ofNat]
    have h2 : c.val.toNat ≤ 127 := h
    omega
  simp [hn]

/-- A character outside ASCII is encoded with at least one byte above 127. -/
theorem utf8EncodeChar_nonascii (c : Char) (h : ¬ c.toNat ≤ 127) :
    ∃ b ∈ (String.utf8EncodeChar c).map UInt8.toNat, 128 ≤ b := by
  have hv : ¬ c.val ≤ 127 := h
  refine ⟨(c.val.toUInt8 &&& 63 ||| 128).toNat, ?_, continuation_byte_ge _⟩
  apply List.mem_map_of_mem
  unfold String.utf8EncodeChar
  simp only [hv, if_false]
  split_ifs <;> simp

/-- The bytes of a string, character by character. -/
theorem bytesOf_mk_cons (c : Char) (cs : List Char) :
    bytesOf ⟨c :: cs⟩ = (String.utf8EncodeChar c).map UInt8.toNat ++ bytesOf ⟨cs⟩ := by
  simp [bytesOf, List.flatMap_cons]

/-- A byte is a hexadecimal digit exactly when the table maps it below 16. -/
theorem reverseHexTable_le_iff (b : Nat) :
    hex.reverseHexTable b ≤ 15 ↔
      (48 ≤ b ∧ b ≤ 57) ∨ (65 ≤ b ∧ b ≤ 70) ∨ (97 ≤ b ∧ b ≤ 102) := by
  unfold hex.reverseHexTable
  split_ifs <;> omega

/-- A character is hexadecimal exactly when its code is a hexadecimal byte. -/
theorem isHexChar_iff (c : Char) : isHexChar c ↔ hex.reverseHexTable c.toNat ≤ 15 := by
  rw [reverseHexTable_le_iff]
  constructor
  · intro h
    simp only [isHexChar, List.mem_cons, List.mem_singleton, List.not_mem_nil, or_false] at h
    rcases h with h | h | h | h | h | h | h | h | h | h | h | h | h | h | h | h | h | h | h | h |
      h | h <;> subst h <;> decide
  · intro h
    have hc : c = Char.ofNat c.toNat := (Char.ofNat_toNat c).symm
    generalize c.toNat = n at h hc
    subst hc
    rcases h with ⟨h1, h2⟩ | ⟨h1, h2⟩ | ⟨h1, h2⟩ <;> interval_cases n <;> decide

/-- Hexadecimal characters are ASCII. -/
theorem isHexChar_ascii (c : Char) (h : isHexChar c) : c.toNat ≤ 127 := by
  have h2 := (reverseHexTable_le_iff c.toNat).1 ((isHexChar_iff c).1 h)
  omega

/-- On hexadecimal text the bytes of the string are the codes of its characters. -/
theorem bytesOf_hexChars (cs : List Char) (h : ∀ c ∈ cs, isHexChar c) :
    bytesOf ⟨cs⟩ = cs.map Char.toNat := by
  induction cs with
  | nil => rfl
  | cons c cs ih =>
    rw [bytesOf_mk_cons, utf8EncodeChar_ascii c (isHexChar_ascii c (h c (List.mem_cons_self c cs))),
      ih (fun d hd => h d (List.mem_cons_of_mem c hd))]
    rfl

/-- When every byte of a string is a hexadecimal digit, every character is. -/
theorem hexChars_of_bytes (cs : List Char)
    (h : ∀ b ∈ bytesOf ⟨cs⟩, hex.reverseHexTable b ≤ 15) : ∀ c ∈ cs, isHexChar c := by
  induction cs with
  | nil => intro c hc; cases hc
  | cons d cs ih =>
    rw [bytesOf_mk_cons] at h
    have hd : isHexChar d := by
      by_cases hascii : d.toNat ≤ 127
      · rw [utf8EncodeChar_ascii d hascii] at h
        exact (isHexChar_iff d).2 (h d.toNat (by simp))
      · obtain ⟨b, hb, hge⟩ := utf8EncodeChar_nonascii d hascii
        have hb15 := h b (List.mem_append_left _ hb)
        have := (reverseHexTable_le_iff b).1 hb15
        omega
    intro c hc
    rcases List.mem_cons.1 hc with rfl | hc
    · exact hd
    · exact ih (fun b hb => h b (List.mem_append_right _ hb)) c hc

/-- Validity of hexadecimal text read on characters and read on bytes agree. -/
theorem validHex_iff_bytes (s : String) :
    ValidHex s ↔
      (bytesOf s).length % 2 = 0 ∧ ∀ b ∈ bytesOf s, hex.reverseHexTable b ≤ 15 := by
  obtain ⟨cs⟩ := s
  constructor
  · rintro ⟨hlen, hall⟩
    rw [bytesOf_hexChars cs hall]
    refine ⟨by simpa using hlen, ?_⟩
    intro b hb
    obtain ⟨c, hc, rfl⟩ := List.mem_map.1 hb
    exact (isHexChar_iff c).1 (hall c hc)
  · rintro ⟨hlen, hall⟩
    have hchars := hexChars_of_bytes cs hall
    rw [bytesOf_hexChars cs hchars] at hlen
    exact ⟨by simpa using hlen, hchars⟩

/-! ## Lemmas: hex decoding -/

/-- Induction on a list two elements at a time, as the decoding loop walks it. -/
theorem list_induction_pairs {α : Type} {P : List α → Prop} (h0 : P [])
    (h1 : ∀ a, P [a]) (h2 : ∀ a b l, P l → P (a :: b :: l)) : ∀ l, P l
  | [] => h0
  | [a] => h1 a
  | a :: b :: l => h2 a b l (list_induction_pairs h0 h1 h2 l)

/-- Decoding succeeds exactly on an even number of hexadecimal bytes. -/
theorem Decode_ok_iff (bs : List Nat) :
    (∃ out, hex.Decode bs = .ok out) ↔
      bs.length % 2 = 0 ∧ ∀ b ∈ bs, hex.reverseHexTable b ≤ 15 := by
  induction bs using list_induction_pairs with
  | h0 => simp [hex.Decode]
  | h1 a =>
    simp only [hex.Decode]
    split_ifs <;> simp
  | h2 p q rest ih =>
    simp only [hex.Decode]
    by_cases hp : hex.reverseHexTable p > 15
    · rw [if_pos hp]
      constructor
      · rintro ⟨out, h⟩
        cases h
      · rintro ⟨_, hall⟩
        have := hall p (by simp)
        omega
    · rw [if_neg hp]
      by_cases hq : hex.reverseHexTable q > 15
      · rw [if_pos hq]
        constructor
        · rintro ⟨out, h⟩
          cases h
        · rintro ⟨_, hall⟩
          have := hall q (by simp)
          omega
      · rw [if_neg hq]
        constructor
        · rintro ⟨out, h⟩
          cases hrest : hex.Decode rest with
          | error e => rw [hrest] at h; cases h
          | ok out2 =>
            obtain ⟨hlen, hall⟩ := ih.1 ⟨out2, hrest⟩
            refine ⟨by simp only [List.length_cons]; omega, ?_⟩
            intro b hb
            simp only [List.mem_cons] at hb
            rcases hb with rfl | rfl | hb
            · omega
            · omega
            · exact hall b hb
        · rintro ⟨hlen, hall⟩
          have hlen2 : rest.length % 2 = 0 := by
            simp only [List.length_cons] at hlen
            omega
          obtain ⟨out2, hrest⟩ := ih.2 ⟨hlen2, fun b hb => hall b (by simp [hb])⟩
          exact ⟨_, by rw [hrest]⟩

/-- The digest translator succeeds exactly when the decoding succeeds, and then
builds the predicate from the algorithm identifier and the decoded bytes. -/
theorem BuildDigestPolicyOption_ok_iff (a : artifact.DigestedArtifact) (p : verify.ArtifactPolicyOption) :
    BuildDigestPolicyOption a = .ok p ↔
      ∃ decoded, hex.Decode (bytesOf a.Digest) = .ok decoded ∧
        p = verify.WithArtifactDigest a.Algorithm decoded := by
  unfold BuildDigestPolicyOption hex.DecodeString
  cases h : hex.Decode (bytesOf a.Digest) with
  | error e => simp
  | ok decoded =>
    simp only [Except.ok.injEq]
    constructor
    · intro hp
      exact ⟨decoded, rfl, hp.symm⟩
    · rintro ⟨d, hd, rfl⟩
      rw [hd]

/-- The digest translator fails exactly when the decoding fails, with its error. -/
theorem BuildDigestPolicyOption_error_iff (a : artifact.DigestedArtifact) (e : hex.Error) :
    BuildDigestPolicyOption a = .error e ↔ hex.Decode (bytesOf a.Digest) = .error e := by
  unfold BuildDigestPolicyOption hex.DecodeString
  cases h : hex.Decode (bytesOf a.Digest) with
  | error e2 => simp
  | ok decoded => simp

/-- Two hexadecimal digit values combine to the byte `16 * a + b`. -/
theorem nibbles_combine : ∀ a < 16, ∀ b < 16, ((a <<< 4) ||| b) % 256 = 16 * a + b := by
  decide

/-- The byte `16 * a + b` splits back into its two digit values. -/
theorem nibbles_split : ∀ a < 16, ∀ b < 16,
    (16 * a + b) >>> 4 = a ∧ (16 * a + b) &&& 0x0f = b := by
  decide

/-- The table value of a hexadecimal character is its digit value. -/
theorem reverseHexTable_eq_hexval (c : Char) (h : isHexChar c) :
    hex.reverseHexTable c.toNat = hexval c := by
  simp only [isHexChar, List.mem_cons, List.mem_singleton, List.not_mem_nil, or_false] at h
  rcases h with h | h | h | h | h | h | h | h | h | h | h | h | h | h | h | h | h | h | h | h |
    h | h <;> subst h <;> decide

/-- A successful decoding yields one byte per pair of input bytes: byte `i` is
`16 * a + b` for the digit values `a`, `b` of input bytes `2 * i` and `2 * i + 1`. -/
theorem Decode_bytes (bs : List Nat) : ∀ out, hex.Decode bs = .ok out →
    2 * out.length = bs.length ∧
    ∀ i, i < out.length → ∃ p q, bs[2 * i]? = some p ∧ bs[2 * i + 1]? = some q ∧
      out[i]? = some (16 * hex.reverseHexTable p + hex.reverseHexTable q) := by
  induction bs using list_induction_pairs with
  | h0 =>
    intro out h
    simp only [hex.Decode, Except.ok.injEq] at h
    subst h
    simp
  | h1 a =>
    intro out h
    simp only [hex.Decode] at h
    split_ifs at h
  | h2 p q rest ih =>
    intro out h
    simp only [hex.Decode] at h
    split_ifs at h with hp hq
    cases hrest : hex.Decode rest with
    | error e => rw [hrest] at h; cases h
    | ok out2 =>
      rw [hrest] at h
      simp only [Except.ok.injEq] at h
      subst h
      obtain ⟨hlen, hidx⟩ := ih out2 hrest
      refine ⟨by simp only [List.length_cons]; omega, ?_⟩
      intro i hi
      cases i with
      | zero =>
        refine ⟨p, q, by simp, by simp, ?_⟩
        simp only [List.getElem?_cons_zero, Option.some.injEq]
        exact nibbles_combine _ (by omega) _ (by omega)
      | succ j =>
        have hj : j < out2.length := by
          simp only [List.length_cons] at hi
          omega
        obtain ⟨p2, q2, h1, h2, h3⟩ := hidx j hj
        refine ⟨p2, q2, ?_, ?_, ?_⟩
        · have e : 2 * (j + 1) = (2 * j + 1) + 1 := by ring
          rw [e, List.getElem?_cons_succ, List.getElem?_cons_succ]
          exact h1
        · have e : 2 * (j + 1) + 1 = (2 * j + 1 + 1) + 1 := by ring
          rw [e, List.getElem?_cons_succ, List.getElem?_cons_succ]
          exact h2
        · rw [List.getElem?_cons_succ]
          exact h3

/-! ## Theorems: digest policy translator -/

/-- C6: `BuildDigestPolicyOption` fails with a decoding error exactly when the
digest is not valid hexadecimal, that is it has odd length or contains a character
outside `[0-9a-fA-F]`; on every even-length string over `[0-9a-fA-F]`, the empty
string included, it succeeds; the digest `abc` fails. -/
theorem BuildDigestPolicyOption_fails_iff (a : artifact.DigestedArtifact) :
    ((∃ e, BuildDigestPolicyOption a = .error e) ↔
      (a.Digest.length % 2 = 1 ∨ ∃ c ∈ a.Digest.data, ¬ isHexChar c)) ∧
    (ValidHex a.Digest → ∃ p, BuildDigestPolicyOption a = .ok p) ∧
    (∃ p, BuildDigestPolicyOption ⟨"", a.Algorithm⟩ = .ok p) ∧
    (∃ e, BuildDigestPolicyOption ⟨"abc", a.Algorithm⟩ = .error e) := by
  have hok : ValidHex a.Digest → ∃ p, BuildDigestPolicyOption a = .ok p := by
    intro hv
    obtain ⟨out, hout⟩ := (Decode_ok_iff _).2 ((validHex_iff_bytes _).1 hv)
    exact ⟨_, (BuildDigestPolicyOption_ok_iff a _).2 ⟨out, hout, rfl⟩⟩
  refine ⟨?_, hok, ⟨_, rfl⟩, ⟨_, rfl⟩⟩
  constructor
  · rintro ⟨e, he⟩
    by_contra hcon
    have hv : ValidHex a.Digest := by
      constructor
      · by_contra hodd
        exact hcon (Or.inl (by omega))
      · intro c hc
        by_contra hnot
        exact hcon (Or.inr ⟨c, hc, hnot⟩)
    obtain ⟨p, hp⟩ := hok hv
    rw [hp] at he
    cases he
  · intro hbad
    cases hres : BuildDigestPolicyOption a with
    | error e => exact ⟨e, rfl⟩
    | ok p =>
      exfalso
      obtain ⟨decoded, hdec, _⟩ := (BuildDigestPolicyOption_ok_iff a p).1 hres
      obtain ⟨hlen, hall⟩ := (validHex_iff_bytes _).2 ((Decode_ok_iff _).1 ⟨decoded, hdec⟩)
      rcases hbad with hodd | ⟨c, hc, hnot⟩
      · omega
      · exact hnot (hall c hc)

/-- Witness for C6: the digest `abc` has odd length and is rejected. -/
theorem BuildDigestPolicyOption_fails_iff_witness :
    ("abc" : String).length % 2 = 1 ∧
    ∃ e, BuildDigestPolicyOption ⟨"abc", "sha256"⟩ = .error e :=
  ⟨by decide, (BuildDigestPolicyOption_fails_iff ⟨"abc", "sha256"⟩).1.2 (Or.inl (by decide))⟩

/-! ### Re-encoding the decoded bytes -/

/-- The digit value of a hexadecimal character is below 16. -/
theorem hexval_lt (c : Char) (h : isHexChar c) : hexval c < 16 := by
  rw [← reverseHexTable_eq_hexval c h]
  have := (isHexChar_iff c).1 h
  omega

/-- The encoder's digit for the value of a hexadecimal character is that
character in lower case. -/
theorem hextable_hexval (c : Char) (h : isHexChar c) :
    hex.hextable.getD (hexval c) '0' = c.toLower := by
  simp only [isHexChar, List.mem_cons, List.mem_singleton, List.not_mem_nil, or_false] at h
  rcases h with h | h | h | h | h | h | h | h | h | h | h | h | h | h | h | h | h | h | h | h |
    h | h <;> subst h <;> decide

/-- A hexadecimal character that is not an upper-case letter is its own lower case. -/
theorem toLower_hexChar (c : Char) (h : isHexChar c) (hu : c.isUpper = false) :
    c.toLower = c := by
  simp only [isHexChar, List.mem_cons, List.mem_singleton, List.not_mem_nil, or_false] at h
  rcases h with h | h | h | h | h | h | h | h | h | h | h | h | h | h | h | h | h | h | h | h |
    h | h <;> subst h <;> revert hu <;> decide

/-- The encoder emits two digits per byte. -/
theorem EncodeToString_cons (v : Nat) (out : List Nat) :
    (hex.EncodeToString (v :: out)).data =
      hex.hextable.getD (v >>> 4) '0' :: hex.hextable.getD (v &&& 0x0f) '0' ::
        (hex.EncodeToString out).data := by
  simp [hex.EncodeToString, List.flatMap_cons]

/-- Re-encoding the bytes decoded from hexadecimal text gives that text in lower
case. -/
theorem EncodeToString_Decode (cs : List Char) : ∀ out, (∀ c ∈ cs, isHexChar c) →
    hex.Decode (cs.map Char.toNat) = .ok out →
    (hex.EncodeToString out).data = cs.map Char.toLower := by
  induction cs using list_induction_pairs with
  | h0 =>
    intro out _ h
    simp only [List.map_nil, hex.Decode, Except.ok.injEq] at h
    subst h
    rfl
  | h1 a =>
    intro out _ h
    simp only [List.map_cons, List.map_nil, hex.Decode] at h
    split_ifs at h
  | h2 p q rest ih =>
    intro out hall h
    have hp : isHexChar p := hall p (by simp)
    have hq : isHexChar q := hall q (by simp)
    simp only [List.map_cons, hex.Decode] at h
    split_ifs at h with h1 h2
    cases hrest : hex.Decode (rest.map Char.toNat) with
    | error e => rw [hrest] at h; cases h
    | ok out2 =>
      rw [hrest] at h
      simp only [Except.ok.injEq] at h
      subst h
      have hbyte : ((hex.reverseHexTable p.toNat <<< 4) ||| hex.reverseHexTable q.toNat) % 256 =
          16 * hexval p + hexval q := by
        rw [reverseHexTable_eq_hexval p hp, reverseHexTable_eq_hexval q hq]
        exact nibbles_combine _ (hexval_lt p hp) _ (hexval_lt q hq)
      obtain ⟨hhi, hlo⟩ := nibbles_split _ (hexval_lt p hp) _ (hexval_lt q hq)
      rw [EncodeToString_cons, hbyte, hhi, hlo, hextable_hexval p hp, hextable_hexval q hq,
        ih out2 (fun c hc => hall c (by simp [hc])) hrest]
      rfl

/-- C7, as stated, fails: the valid digest `AB` decodes to the byte `0xab`, which
re-encodes as `ab`, not `AB`; the digests `ab` and `AB` yield the same predicate,
so no re-encoding of the decoded bytes returns both. -/
theorem BuildDigestPolicyOption_roundtrip_counterexample :
    ValidHex "AB" ∧
    BuildDigestPolicyOption ⟨"AB", "sha256"⟩ = .ok (verify.WithArtifactDigest "sha256" [0xab]) ∧
    hex.EncodeToString [0xab] = "ab" ∧
    hex.EncodeToString [0xab] ≠ "AB" ∧
    BuildDigestPolicyOption ⟨"ab", "sha256"⟩ = BuildDigestPolicyOption ⟨"AB", "sha256"⟩ :=
  ⟨by decide, rfl, by decide, by decide, rfl⟩

/-- C7 (amended): for every valid even-length hex digest, `BuildDigestPolicyOption`
succeeds and the decoded bytes re-encode as hex to the digest in lower case; they
re-encode to the very same string when the digest has no upper-case letter. -/
theorem BuildDigestPolicyOption_roundtrip (a : artifact.DigestedArtifact) (hvalid : ValidHex a.Digest) :
    ∃ decoded, BuildDigestPolicyOption a = .ok (verify.WithArtifactDigest a.Algorithm decoded) ∧
      hex.EncodeToString decoded = a.Digest.toLower ∧
      ((∀ c ∈ a.Digest.data, c.isUpper = false) → hex.EncodeToString decoded = a.Digest) := by
  obtain ⟨hev, hall⟩ := hvalid
  obtain ⟨decoded, hdec⟩ := (Decode_ok_iff _).2 ((validHex_iff_bytes _).1 ⟨hev, hall⟩)
  have hdec2 := hdec
  rw [bytesOf_hexChars _ hall] at hdec2
  have henc := EncodeToString_Decode a.Digest.data decoded hall hdec2
  refine ⟨decoded, (BuildDigestPolicyOption_ok_iff a _).2 ⟨decoded, hdec, rfl⟩, ?_, ?_⟩
  · apply String.ext
    rw [henc, String.toLower, String.map_eq]
  · intro hlower
    apply String.ext
    rw [henc]
    calc a.Digest.data.map Char.toLower
        = a.Digest.data.map id :=
          List.map_congr_left (fun c hc => toLower_hexChar c (hall c hc) (hlower c hc))
      _ = a.Digest.data := List.map_id _

/-- Witness for C7 (amended): the digest `deadbeef` is valid, has no upper-case
letter, and its decoded bytes re-encode to `deadbeef`. -/
theorem BuildDigestPolicyOption_roundtrip_witness :
    ValidHex "deadbeef" ∧
    ∃ decoded, BuildDigestPolicyOption ⟨"deadbeef", "sha256"⟩ =
        .ok (verify.WithArtifactDigest "sha256" decoded) ∧
      hex.EncodeToString decoded = ("deadbeef" : String).toLower ∧
      ((∀ c ∈ ("deadbeef" : String).data, c.isUpper = false) →
        hex.EncodeToString decoded = "deadbeef") :=
  ⟨by decide, BuildDigestPolicyOption_roundtrip ⟨"deadbeef", "sha256"⟩ (by decide)⟩

/-- C8: for a valid hex digest of length `2 * n`, `BuildDigestPolicyOption` builds
the predicate from the artifact's algorithm identifier and exactly `n` bytes, byte
`i` being `16 * hexval (s[2i]) + hexval (s[2i+1])`; the digest `deadbeef` yields
the four bytes `0xde, 0xad, 0xbe, 0xef`. -/
theorem BuildDigestPolicyOption_bytes (a : artifact.DigestedArtifact) (n : Nat)
    (hvalid : ValidHex a.Digest) (hlen : a.Digest.length = 2 * n) :
    (∃ decoded, BuildDigestPolicyOption a = .ok (verify.WithArtifactDigest a.Algorithm decoded) ∧
      decoded.length = n ∧
      ∀ i, i < n → ∃ p q, a.Digest.data[2 * i]? = some p ∧ a.Digest.data[2 * i + 1]? = some q ∧
        decoded[i]? = some (16 * hexval p + hexval q)) ∧
    BuildDigestPolicyOption ⟨"deadbeef", a.Algorithm⟩ =
      .ok (verify.WithArtifactDigest a.Algorithm [0xde, 0xad, 0xbe, 0xef]) := by
  refine ⟨?_, rfl⟩
  obtain ⟨hev, hall⟩ := hvalid
  obtain ⟨decoded, hdec⟩ := (Decode_ok_iff _).2 ((validHex_iff_bytes _).1 ⟨hev, hall⟩)
  have hbytes : bytesOf a.Digest = a.Digest.data.map Char.toNat := bytesOf_hexChars _ hall
  obtain ⟨hl, hidx⟩ := Decode_bytes _ decoded hdec
  have hn : decoded.length = n := by
    rw [hbytes, List.length_map] at hl
    have : a.Digest.data.length = 2 * n := hlen
    omega
  refine ⟨decoded, (BuildDigestPolicyOption_ok_iff a _).2 ⟨decoded, hdec, rfl⟩, hn, ?_⟩
  intro i hi
  obtain ⟨p, q, hp, hq, hd⟩ := hidx i (by omega)
  rw [hbytes, List.getElem?_map] at hp hq
  cases hcp : a.Digest.data[2 * i]? with
  | none => rw [hcp] at hp; cases hp
  | some cp =>
    cases hcq : a.Digest.data[2 * i + 1]? with
    | none => rw [hcq] at hq; cases hq
    | some cq =>
      rw [hcp] at hp
      rw [hcq] at hq
      simp only [Option.map_some', Option.some.injEq] at hp hq
      have hcpmem : cp ∈ a.Digest.data := List.getElem?_mem hcp
      have hcqmem : cq ∈ a.Digest.data := List.getElem?_mem hcq
      refine ⟨cp, cq, rfl, rfl, ?_⟩
      rw [hd, ← hp, ← hq, reverseHexTable_eq_hexval cp (hall cp hcpmem),
        reverseHexTable_eq_hexval cq (hall cq hcqmem)]

/-- Witness for C8: the digest `deadbeef` with algorithm `sha256`, `n = 4`. -/
theorem BuildDigestPolicyOption_bytes_witness :
    ValidHex "deadbeef" ∧ ("deadbeef" : String).length = 2 * 4 ∧
    BuildDigestPolicyOption ⟨"deadbeef", "sha256"⟩ =
      .ok (verify.WithArtifactDigest "sha256" [0xde, 0xad, 0xbe, 0xef]) :=
  ⟨by decide, by decide,
    (BuildDigestPolicyOption_bytes ⟨"deadbeef", "sha256"⟩ 4 (by decide) (by decide)).2⟩

/-- C9: a malformed digest is the only failure mode of `BuildDigestPolicyOption`.
Two artifacts with the same digest, whatever their algorithm identifiers, both
succeed or both fail (with the same error); a failure is the error of the hex
decoding of the digest; on success the predicate carries the artifact's algorithm
identifier unchanged and bytes that depend on the digest only. -/
theorem BuildDigestPolicyOption_algorithm_independent (a b : artifact.DigestedArtifact)
    (hdigest : a.Digest = b.Digest) :
    ((∃ p, BuildDigestPolicyOption a = .ok p) ↔ (∃ q, BuildDigestPolicyOption b = .ok q)) ∧
    (∀ e, BuildDigestPolicyOption a = .error e ↔ BuildDigestPolicyOption b = .error e) ∧
    (∀ e, BuildDigestPolicyOption a = .error e → hex.DecodeString a.Digest = .error e) ∧
    (∀ p, BuildDigestPolicyOption a = .ok p → p.algorithm = a.Algorithm) ∧
    (∀ p q, BuildDigestPolicyOption a = .ok p → BuildDigestPolicyOption b = .ok q →
      q.algorithm = b.Algorithm ∧ p.artifactDigest = q.artifactDigest) := by
  refine ⟨?_, ?_, ?_, ?_, ?_⟩
  · constructor
    · rintro ⟨p, hp⟩
      obtain ⟨d, hd, _⟩ := (BuildDigestPolicyOption_ok_iff a p).1 hp
      exact ⟨_, (BuildDigestPolicyOption_ok_iff b _).2 ⟨d, hdigest ▸ hd, rfl⟩⟩
    · rintro ⟨q, hq⟩
      obtain ⟨d, hd, _⟩ := (BuildDigestPolicyOption_ok_iff b q).1 hq
      exact ⟨_, (BuildDigestPolicyOption_ok_iff a _).2 ⟨d, hdigest ▸ hd, rfl⟩⟩
  · intro e
    rw [BuildDigestPolicyOption_error_iff, BuildDigestPolicyOption_error_iff, hdigest]
  · intro e he
    exact (BuildDigestPolicyOption_error_iff a e).1 he
  · intro p hp
    obtain ⟨d, _, rfl⟩ := (BuildDigestPolicyOption_ok_iff a p).1 hp
    rfl
  · intro p q hp hq
    obtain ⟨d, hd, rfl⟩ := (BuildDigestPolicyOption_ok_iff a p).1 hp
    obtain ⟨d2, hd2, rfl⟩ := (BuildDigestPolicyOption_ok_iff b q).1 hq
    rw [hdigest, hd2] at hd
    cases hd
    exact ⟨rfl, rfl⟩

/-- Witness for C9: the digest `deadbeef` under the algorithm identifiers `sha256`
and the empty string succeeds under both, with the same bytes and each artifact's
own identifier. -/
theorem BuildDigestPolicyOption_algorithm_independent_witness :
    ((∃ p, BuildDigestPolicyOption ⟨"deadbeef", "sha256"⟩ = .ok p) ↔
      (∃ q, BuildDigestPolicyOption ⟨"deadbeef", ""⟩ = .ok q)) ∧
    ((verify.WithArtifactDigest "" [0xde, 0xad, 0xbe, 0xef]).algorithm = "" ∧
      (verify.WithArtifactDigest "sha256" [0xde, 0xad, 0xbe, 0xef]).artifactDigest =
        (verify.WithArtifactDigest "" [0xde, 0xad, 0xbe, 0xef]).artifactDigest) :=
  ⟨(BuildDigestPolicyOption_algorithm_independent ⟨"deadbeef", "sha256"⟩ ⟨"deadbeef", ""⟩ rfl).1,
    (BuildDigestPolicyOption_algorithm_independent
      ⟨"deadbeef", "sha256"⟩ ⟨"deadbeef", ""⟩ rfl).2.2.2.2 _ _ rfl rfl⟩

/-! ## Lemmas: rendering -/

/-- String concatenation cancels on the left. -/
theorem string_append_left_cancel (a b c : String) (h : a ++ b = a ++ c) : b = c := by
  apply String.ext
  have hd := congrArg String.data h
  simpa [String.data_append] using hd

/-- A string followed by a non-empty string is a different string. -/
theorem string_append_ne_self (a b : String) (hb : b ≠ "") : a ++ b ≠ a := by
  intro h
  apply hb
  apply string_append_left_cancel a
  rw [h, String.append_empty]

/-- A line break followed by text is not the empty string. -/
theorem newline_append_ne_empty (t : String) : "\n" ++ t ≠ "" := by
  intro h
  have hd := congrArg String.length h
  rw [String.length_append] at hd
  have h1 : ("\n" : String).length = 1 := by decide
  have h0 : ("" : String).length = 0 := by decide
  omega

/-- The exact-match line and the regex line differ at their 87th character,
whatever follows them. -/
theorem sanExactLine_append_ne (s r t u : String) :
    sanExactLine s ++ t ≠ sanRegexLine r ++ u := by
  intro h
  have hd := congrArg (fun x : String => x.data[86]?) h
  have h1 : (sanExactLine s ++ t).data[86]? = some 'e' := rfl
  have h2 : (sanRegexLine r ++ u).data[86]? = some 'r' := rfl
  simp only [h1, h2] at hd
  exact absurd hd (by decide)

/-- What the SAN step of the rendering appends to the text built before it. -/
theorem BuildPolicyInformation_san_step (c : EnforcementCriteria) :
    (c.SAN ≠ "" →
      c.BuildPolicyInformation =
        c.withoutSAN.BuildPolicyInformation ++ "\n" ++ sanExactLine c.SAN) ∧
    (c.SAN = "" → c.SANRegex ≠ "" →
      c.BuildPolicyInformation =
        c.withoutSAN.BuildPolicyInformation ++ "\n" ++ sanRegexLine c.SANRegex) ∧
    (c.SAN = "" → c.SANRegex = "" →
      c.BuildPolicyInformation = c.withoutSAN.BuildPolicyInformation) := by
  refine ⟨?_, ?_, ?_⟩
  · intro h
    simp only [EnforcementCriteria.BuildPolicyInformation, EnforcementCriteria.withoutSAN,
      ne_eq, h, not_false_eq_true, if_true, not_true_eq_false, if_false]
    rw [String.append_assoc _ "\n"]
    rfl
  · intro h hr
    simp only [EnforcementCriteria.BuildPolicyInformation, EnforcementCriteria.withoutSAN,
      ne_eq, h, hr, not_false_eq_true, if_true, not_true_eq_false, if_false]
    rw [String.append_assoc _ "\n"]
    rfl
  · intro h hr
    simp only [EnforcementCriteria.BuildPolicyInformation, EnforcementCriteria.withoutSAN,
      ne_eq, h, hr, not_true_eq_false, if_false]

/-! ## Lemmas: the lines of the rendering -/

/-- The kind of each line is the one its name says, whatever value it carries. -/
theorem lineKind_lines (x : String) :
    lineKind headerLine = .header ∧
    lineKind (predicateTypeLine x) = .predicateType ∧
    lineKind (issuerLine x) = .issuer ∧
    lineKind (ownerURILine x) = .ownerURI ∧
    lineKind (repositoryURILine x) = .repositoryURI ∧
    lineKind hostedRunnerLine = .hostedRunner ∧
    lineKind (sanExactLine x) = .sanExact ∧
    lineKind (sanRegexLine x) = .sanRegex :=
  ⟨rfl, rfl, rfl, rfl, rfl, rfl, rfl, rfl⟩

/-- The lines written for criteria `c`, each with the condition under which it is
written. -/
theorem mem_policyLines_iff (c : EnforcementCriteria) (l : String) :
    l ∈ policyLines c ↔
      l = headerLine ∨ l = predicateTypeLine c.PredicateType ∨
      l = issuerLine c.Certificate.Issuer ∨
      l = ownerURILine c.Certificate.SourceRepositoryOwnerURI ∨
      (c.Certificate.SourceRepositoryURI ≠ "" ∧
        l = repositoryURILine c.Certificate.SourceRepositoryURI) ∨
      (c.Certificate.RunnerEnvironment = "github-hosted" ∧ l = hostedRunnerLine) ∨
      (c.SAN ≠ "" ∧ l = sanExactLine c.SAN) ∨
      (c.SAN = "" ∧ c.SANRegex ≠ "" ∧ l = sanRegexLine c.SANRegex) := by
  unfold policyLines
  by_cases h1 : c.Certificate.SourceRepositoryURI = "" <;>
  by_cases h2 : c.Certificate.RunnerEnvironment = "github-hosted" <;>
  by_cases h3 : c.SAN = "" <;>
  by_cases h4 : c.SANRegex = "" <;>
  simp [h1, h2, h3, h4]

/-- The rendering of a list of lines followed by another. -/
theorem renderLines_append (ls ms : List String) :
    renderLines (ls ++ ms) = renderLines ls ++ renderLines ms := by
  induction ls with
  | nil => simp [renderLines]
  | cons l ls ih =>
    show "\n" ++ l ++ renderLines (ls ++ ms) = "\n" ++ l ++ renderLines ls ++ renderLines ms
    rw [ih]
    simp only [String.append_assoc]

set_option maxRecDepth 100000 in
/-- The rendering is its lines, each preceded by a line break. -/
theorem BuildPolicyInformation_eq_renderLines (c : EnforcementCriteria) :
    c.BuildPolicyInformation = renderLines (policyLines c) := by
  unfold EnforcementCriteria.BuildPolicyInformation policyLines GitHubRunner
  by_cases h1 : c.Certificate.SourceRepositoryURI = "" <;>
  by_cases h2 : c.Certificate.RunnerEnvironment = "github-hosted" <;>
  by_cases h3 : c.SAN = "" <;>
  by_cases h4 : c.SANRegex = "" <;>
  simp only [h1, h2, h3, h4, ne_eq, not_true_eq_false, not_false_eq_true, if_true, if_false,
    List.append_nil, List.cons_append, List.nil_append, renderLines, String.append_assoc,
    String.append_empty] <;>
  rfl

/-- A written line of one of the four optional kinds is the line of that kind for
the criteria's own field, and the condition for writing it holds. -/
theorem policyLines_optional (c : EnforcementCriteria) (l : String) (h : l ∈ policyLines c) :
    (lineKind l = .repositoryURI →
      c.Certificate.SourceRepositoryURI ≠ "" ∧
        l = repositoryURILine c.Certificate.SourceRepositoryURI) ∧
    (lineKind l = .hostedRunner →
      c.Certificate.RunnerEnvironment = "github-hosted" ∧ l = hostedRunnerLine) ∧
    (lineKind l = .sanExact → c.SAN ≠ "" ∧ l = sanExactLine c.SAN) ∧
    (lineKind l = .sanRegex →
      c.SAN = "" ∧ c.SANRegex ≠ "" ∧ l = sanRegexLine c.SANRegex) := by
  obtain ⟨k0, -, -, -, -, k5, -, -⟩ := lineKind_lines ""
  obtain ⟨-, k1, -, -, -, -, -, -⟩ := lineKind_lines c.PredicateType
  obtain ⟨-, -, k2, -, -, -, -, -⟩ := lineKind_lines c.Certificate.Issuer
  obtain ⟨-, -, -, k3, -, -, -, -⟩ := lineKind_lines c.Certificate.SourceRepositoryOwnerURI
  obtain ⟨-, -, -, -, k4, -, -, -⟩ := lineKind_lines c.Certificate.SourceRepositoryURI
  obtain ⟨-, -, -, -, -, -, k6, -⟩ := lineKind_lines c.SAN
  obtain ⟨-, -, -, -, -, -, -, k7⟩ := lineKind_lines c.SANRegex
  rcases (mem_policyLines_iff c l).1 h with h | h | h | h | ⟨hc, h⟩ | ⟨hc, h⟩ | ⟨hc, h⟩ |
    ⟨hc, hc2, h⟩ <;> subst h
  · simp [k0]
  · simp [k1]
  · simp [k2]
  · simp [k3]
  · simp [k4, hc]
  · simp [k5, hc]
  · simp [k6, hc]
  · simp [k7, hc, hc2]

/-- No line is written after the SAN step: the last line is the SAN line when one
is written. -/
theorem policyLines_getLast_sanExact (c : EnforcementCriteria) (h : c.SAN ≠ "") :
    (policyLines c).getLast? = some (sanExactLine c.SAN) := by
  unfold policyLines
  rw [if_pos h, List.getLast?_append]
  simp

/-! ## Lemmas: the rendering read back as text -/

/-- Joining lines with line breaks: the first line, then the rest each after a
line break. -/
theorem intercalate_newline_cons (x : List Char) (rest : List (List Char)) :
    ['\n'].intercalate (x :: rest) = x ++ ['\n'].intercalate ([] :: rest) := by
  cases rest with
  | nil => simp [List.intercalate]
  | cons y more => simp [List.intercalate]

/-- The characters of the rendered lines: an empty first line, then the lines,
joined by line breaks. -/
theorem renderLines_data (ls : List String) :
    (renderLines ls).data = ['\n'].intercalate ([] :: ls.map String.data) := by
  induction ls with
  | nil => simp [renderLines, List.intercalate]
  | cons l ls ih =>
    have hstep : (renderLines (l :: ls)).data = '\n' :: (l.data ++ (renderLines ls).data) := by
      simp only [renderLines, String.data_append]
      rfl
    have hsplit : ['\n'].intercalate ([] :: l.data :: ls.map String.data) =
        '\n' :: ['\n'].intercalate (l.data :: ls.map String.data) := by
      simp [List.intercalate]
    rw [hstep, ih, List.map_cons, hsplit, intercalate_newline_cons l.data]

/-- Read back as text, rendered lines without line breaks inside them are an empty
first line followed by those lines. -/
theorem textLines_renderLines (ls : List String) (h : ∀ l ∈ ls, '\n' ∉ l.data) :
    textLines (renderLines ls) = "" :: ls := by
  unfold textLines
  rw [renderLines_data, List.splitOn_intercalate _ '\n' _ (by simp)]
  · simp only [List.map_cons, List.map_map]
    congr 1
    calc List.map (String.mk ∘ String.data) ls = List.map id ls :=
          List.map_congr_left (fun l _ => rfl)
      _ = ls := List.map_id ls
  · intro l hl
    rcases List.mem_cons.1 hl with rfl | hl
    · simp
    · obtain ⟨m, hm, rfl⟩ := List.mem_map.1 hl
      exact h m hm

/-- A fixed opening text without line breaks, followed by a value without line
breaks, has no line break. -/
theorem newline_not_mem_append (opening value : String) (ho : '\n' ∉ opening.data)
    (hv : '\n' ∉ value.data) : '\n' ∉ (opening ++ value).data := by
  rw [String.data_append, List.mem_append]
  exact fun h => h.elim ho hv

/-- When no printed field value contains a line break, no written line does. -/
theorem policyLines_singleLine (c : EnforcementCriteria) (h : singleLineFields c) :
    ∀ l ∈ policyLines c, '\n' ∉ l.data := by
  intro l hl
  rcases (mem_policyLines_iff c l).1 hl with e | e | e | e | ⟨-, e⟩ | ⟨-, e⟩ | ⟨-, e⟩ |
    ⟨-, -, e⟩ <;> subst e
  · decide
  · exact newline_not_mem_append _ _ (by decide) (h _ (by simp))
  · exact newline_not_mem_append _ _ (by decide) (h _ (by simp))
  · exact newline_not_mem_append _ _ (by decide) (h _ (by simp))
  · exact newline_not_mem_append _ _ (by decide) (h _ (by simp))
  · decide
  · exact newline_not_mem_append _ _ (by decide) (h _ (by simp))
  · exact newline_not_mem_append _ _ (by decide) (h _ (by simp))

/-- When no printed field value contains a line break, the lines of the output
text are an empty first line followed by the lines written. -/
theorem textLines_BuildPolicyInformation (c : EnforcementCriteria) (h : singleLineFields c) :
    textLines c.BuildPolicyInformation = "" :: policyLines c := by
  rw [BuildPolicyInformation_eq_renderLines, textLines_renderLines _ (policyLines_singleLine c h)]

/-- When no printed field value contains a line break, the output text contains a
non-empty line exactly when that line is written. -/
theorem containsLine_iff_mem_policyLines (c : EnforcementCriteria) (h : singleLineFields c)
    (l : String) (hl : l ≠ "") :
    containsLine c.BuildPolicyInformation l ↔ l ∈ policyLines c := by
  unfold containsLine
  rw [textLines_BuildPolicyInformation c h, List.mem_cons]
  exact ⟨fun hm => hm.resolve_left hl, Or.inr⟩

/-- A string with a first character is not empty. -/
theorem ne_empty_of_first (l : String) (ch : Char) (h : l.data[0]? = some ch) : l ≠ "" := by
  intro he
  rw [he] at h
  cases h

/-! ## Theorems: the lines of the rendering -/

/-- C10, as stated, fails: the criteria `sanInjectionCriteria` are accepted by
`Valid`, their owner URI carries a line break followed by the text of the regex
line for `y`, and the output text contains both the exact-match line for their
`SAN` and the regex line for their `SANRegex`. -/
theorem BuildPolicyInformation_one_san_line_counterexample :
    sanInjectionCriteria.Valid = none ∧
    containsLine sanInjectionCriteria.BuildPolicyInformation
      (sanExactLine sanInjectionCriteria.SAN) ∧
    containsLine sanInjectionCriteria.BuildPolicyInformation
      (sanRegexLine sanInjectionCriteria.SANRegex) := by
  refine ⟨by decide, ?_, ?_⟩ <;> decide

/-- C10 (amended): for criteria accepted by `Valid`, the rendering appends exactly
one SAN line to the text built from the other fields: the exact-match line with
`SAN` when `SAN` is set, otherwise the regex line with `SANRegex`; never neither
and never both. When no printed field value contains a line break, the output
text contains exactly one of the two lines. -/
theorem BuildPolicyInformation_one_san_line (c : EnforcementCriteria) (hvalid : c.Valid = none) :
    (singleLineFields c →
      Xor' (containsLine c.BuildPolicyInformation (sanExactLine c.SAN))
        (containsLine c.BuildPolicyInformation (sanRegexLine c.SANRegex))) ∧
    Xor'
      (c.BuildPolicyInformation =
        c.withoutSAN.BuildPolicyInformation ++ "\n" ++ sanExactLine c.SAN)
      (c.BuildPolicyInformation =
        c.withoutSAN.BuildPolicyInformation ++ "\n" ++ sanRegexLine c.SANRegex) ∧
    (c.SAN ≠ "" →
      c.BuildPolicyInformation =
        c.withoutSAN.BuildPolicyInformation ++ "\n" ++ sanExactLine c.SAN) ∧
    (c.SAN = "" →
      c.BuildPolicyInformation =
        c.withoutSAN.BuildPolicyInformation ++ "\n" ++ sanRegexLine c.SANRegex) ∧
    c.BuildPolicyInformation ≠ c.withoutSAN.BuildPolicyInformation ∧
    c.BuildPolicyInformation ≠
      c.withoutSAN.BuildPolicyInformation ++ "\n" ++ sanExactLine c.SAN ++ "\n" ++
        sanRegexLine c.SANRegex := by
  refine ⟨?_, ?_⟩
  · intro hs
    rw [containsLine_iff_mem_policyLines c hs (sanExactLine c.SAN)
        (ne_empty_of_first (sanExactLine c.SAN) '-' rfl),
      containsLine_iff_mem_policyLines c hs (sanRegexLine c.SANRegex)
        (ne_empty_of_first (sanRegexLine c.SANRegex) '-' rfl)]
    have hsan := san_set_of_Valid c hvalid
    by_cases hS : c.SAN = ""
    · have hR : c.SANRegex ≠ "" := hsan.resolve_right (fun h => h hS)
      refine Or.inr ⟨(mem_policyLines_iff c _).2 (Or.inr (Or.inr (Or.inr (Or.inr (Or.inr
        (Or.inr (Or.inr ⟨hS, hR, rfl⟩))))))), ?_⟩
      intro hmem
      exact ((policyLines_optional c _ hmem).2.2.1 (lineKind_lines _).2.2.2.2.2.2.1).1 hS
    · refine Or.inl ⟨(mem_policyLines_iff c _).2 (Or.inr (Or.inr (Or.inr (Or.inr (Or.inr
        (Or.inr (Or.inl ⟨hS, rfl⟩))))))), ?_⟩
      intro hmem
      exact hS ((policyLines_optional c _ hmem).2.2.2 (lineKind_lines _).2.2.2.2.2.2.2).1
  · obtain ⟨hexact, hregex, -⟩ := BuildPolicyInformation_san_step c
    have hsan : c.SANRegex ≠ "" ∨ c.SAN ≠ "" := san_set_of_Valid c hvalid
    have hdiff : c.withoutSAN.BuildPolicyInformation ++ "\n" ++ sanExactLine c.SAN ≠
        c.withoutSAN.BuildPolicyInformation ++ "\n" ++ sanRegexLine c.SANRegex := by
      intro h
      have h2 := string_append_left_cancel _ _ _ h
      apply sanExactLine_append_ne c.SAN c.SANRegex "" ""
      rw [String.append_empty, String.append_empty]
      exact h2
    by_cases hS : c.SAN = ""
    · have hR : c.SANRegex ≠ "" := hsan.resolve_right (fun h => h hS)
      have hB := hregex hS hR
      refine ⟨Or.inr ⟨hB, fun hA => hdiff (hA.symm.trans hB)⟩, fun h => absurd hS h,
        fun _ => hB, ?_, ?_⟩
      · rw [hB, String.append_assoc]
        exact string_append_ne_self _ _ (newline_append_ne_empty _)
      · rw [hB]
        intro h
        simp only [String.append_assoc] at h
        have h2 := string_append_left_cancel _ _ _ (string_append_left_cancel _ _ _ h)
        apply sanExactLine_append_ne c.SAN c.SANRegex ("\n" ++ sanRegexLine c.SANRegex) ""
        rw [String.append_empty]
        exact h2.symm
    · have hA := hexact hS
      refine ⟨Or.inl ⟨hA, fun hB => hdiff (hA.symm.trans hB)⟩, fun _ => hA,
        fun h => absurd h hS, ?_, ?_⟩
      · rw [hA, String.append_assoc]
        exact string_append_ne_self _ _ (newline_append_ne_empty _)
      · rw [hA, String.append_assoc _ "\n" (sanRegexLine c.SANRegex)]
        exact (string_append_ne_self _ _ (newline_append_ne_empty _)).symm

/-- Witness for C10 (amended): the example criteria are valid and print no line
break; their rendering ends with the exact-match line and not with the regex
line, and the output text contains exactly one of the two lines. -/
theorem BuildPolicyInformation_one_san_line_witness :
    exampleCriteria.Valid = none ∧ singleLineFields exampleCriteria ∧
    Xor' (containsLine exampleCriteria.BuildPolicyInformation (sanExactLine exampleCriteria.SAN))
      (containsLine exampleCriteria.BuildPolicyInformation
        (sanRegexLine exampleCriteria.SANRegex)) ∧
    Xor'
      (exampleCriteria.BuildPolicyInformation =
        exampleCriteria.withoutSAN.BuildPolicyInformation ++ "\n" ++
          sanExactLine exampleCriteria.SAN)
      (exampleCriteria.BuildPolicyInformation =
        exampleCriteria.withoutSAN.BuildPolicyInformation ++ "\n" ++
          sanRegexLine exampleCriteria.SANRegex) :=
  ⟨by decide, by decide,
    (BuildPolicyInformation_one_san_line exampleCriteria (by decide)).1 (by decide),
    (BuildPolicyInformation_one_san_line exampleCriteria (by decide)).2.1⟩

/-- C11, as stated, fails: the criteria `repositoryInjectionCriteria` have an empty
`Certificate.SourceRepositoryURI`, their `SAN` carries a line break followed by
the text of the repository-URI line, and the output text contains the
repository-URI line. -/
theorem BuildPolicyInformation_repositoryURI_line_counterexample :
    repositoryInjectionCriteria.Certificate.SourceRepositoryURI = "" ∧
    containsLine repositoryInjectionCriteria.BuildPolicyInformation
      (repositoryURILine repositoryInjectionCriteria.Certificate.SourceRepositoryURI) := by
  refine ⟨rfl, ?_⟩
  decide

/-- C11 (amended): the rendering is made of the lines `policyLines`, and the
source-repository-URI line is written exactly when
`Certificate.SourceRepositoryURI` is non-empty; when it is empty no
repository-URI line of any value is written. When no printed field value
contains a line break, the output text contains the repository-URI line exactly
when `Certificate.SourceRepositoryURI` is non-empty. -/
theorem BuildPolicyInformation_repositoryURI_line (c : EnforcementCriteria) :
    c.BuildPolicyInformation = renderLines (policyLines c) ∧
    (repositoryURILine c.Certificate.SourceRepositoryURI ∈ policyLines c ↔
      c.Certificate.SourceRepositoryURI ≠ "") ∧
    (c.Certificate.SourceRepositoryURI = "" → ∀ uri, repositoryURILine uri ∉ policyLines c) ∧
    (singleLineFields c →
      (containsLine c.BuildPolicyInformation
          (repositoryURILine c.Certificate.SourceRepositoryURI) ↔
        c.Certificate.SourceRepositoryURI ≠ "")) := by
  have hiff : repositoryURILine c.Certificate.SourceRepositoryURI ∈ policyLines c ↔
      c.Certificate.SourceRepositoryURI ≠ "" := by
    constructor
    · intro hmem
      exact ((policyLines_optional c _ hmem).1 (lineKind_lines _).2.2.2.2.1).1
    · intro hne
      exact (mem_policyLines_iff c _).2 (Or.inr (Or.inr (Or.inr (Or.inr (Or.inl ⟨hne, rfl⟩)))))
  refine ⟨BuildPolicyInformation_eq_renderLines c, hiff, ?_, ?_⟩
  · intro hempty uri hmem
    exact ((policyLines_optional c _ hmem).1 (lineKind_lines _).2.2.2.2.1).1 hempty
  · intro hs
    rw [containsLine_iff_mem_policyLines c hs
      (repositoryURILine c.Certificate.SourceRepositoryURI)
      (ne_empty_of_first (repositoryURILine c.Certificate.SourceRepositoryURI) '-' rfl)]
    exact hiff

/-- Witness for C11 (amended): the example criteria print no line break, have no
repository URI, and neither write nor contain a repository-URI line; with a
repository URI set the line is written. -/
theorem BuildPolicyInformation_repositoryURI_line_witness :
    singleLineFields exampleCriteria ∧
    ¬ containsLine exampleCriteria.BuildPolicyInformation
      (repositoryURILine exampleCriteria.Certificate.SourceRepositoryURI) ∧
    repositoryURILine "https://github.com/acme/repo" ∉ policyLines exampleCriteria ∧
    repositoryURILine "https://github.com/acme/repo" ∈
      policyLines { exampleCriteria with
        Certificate := { exampleCriteria.Certificate with
          SourceRepositoryURI := "https://github.com/acme/repo" } } :=
  ⟨by decide,
    fun h => ((BuildPolicyInformation_repositoryURI_line exampleCriteria).2.2.2
      (by decide)).1 h rfl,
    (BuildPolicyInformation_repositoryURI_line exampleCriteria).2.2.1 rfl _,
    (BuildPolicyInformation_repositoryURI_line
      { exampleCriteria with
        Certificate := { exampleCriteria.Certificate with
          SourceRepositoryURI := "https://github.com/acme/repo" } }).2.1.2 (by decide)⟩

/-- C14: the rendering is made of the lines `policyLines`, and the hosted-runner
line is among them exactly when `Certificate.RunnerEnvironment` equals
`github-hosted`; an empty runner environment produces no runner line. -/
theorem BuildPolicyInformation_hostedRunner_line (c : EnforcementCriteria) :
    c.BuildPolicyInformation = renderLines (policyLines c) ∧
    (hostedRunnerLine ∈ policyLines c ↔ c.Certificate.RunnerEnvironment = "github-hosted") ∧
    (c.Certificate.RunnerEnvironment = "" → hostedRunnerLine ∉ policyLines c) := by
  have hiff : hostedRunnerLine ∈ policyLines c ↔
      c.Certificate.RunnerEnvironment = "github-hosted" := by
    constructor
    · intro hmem
      exact ((policyLines_optional c _ hmem).2.1 (lineKind_lines "").2.2.2.2.2.1).1
    · intro hr
      exact (mem_policyLines_iff c _).2
        (Or.inr (Or.inr (Or.inr (Or.inr (Or.inr (Or.inl ⟨hr, rfl⟩))))))
  refine ⟨BuildPolicyInformation_eq_renderLines c, hiff, ?_⟩
  intro hempty hmem
  have hr := hiff.1 hmem
  rw [hempty] at hr
  exact absurd hr (by decide)

/-- Witness for C14: the example criteria have an empty runner environment and
no runner line; with `github-hosted` the line is written. -/
theorem BuildPolicyInformation_hostedRunner_line_witness :
    hostedRunnerLine ∉ policyLines exampleCriteria ∧
    hostedRunnerLine ∈
      policyLines { exampleCriteria with
        Certificate := { exampleCriteria.Certificate with RunnerEnvironment := "github-hosted" } } :=
  ⟨(BuildPolicyInformation_hostedRunner_line exampleCriteria).2.2 rfl,
    (BuildPolicyInformation_hostedRunner_line
      { exampleCriteria with
        Certificate := { exampleCriteria.Certificate with
          RunnerEnvironment := "github-hosted" } }).2.1.2 rfl⟩

/-- Every written line is non-empty. -/
theorem policyLines_ne_empty (c : EnforcementCriteria) (l : String) (h : l ∈ policyLines c) :
    l ≠ "" := by
  have hfirst : ∃ ch, l.data[0]? = some ch := by
    rcases (mem_policyLines_iff c l).1 h with h | h | h | h | ⟨-, h⟩ | ⟨-, h⟩ | ⟨-, h⟩ |
      ⟨-, -, h⟩ <;> subst h <;> exact ⟨_, rfl⟩
  intro he
  obtain ⟨ch, hch⟩ := hfirst
  rw [he] at hch
  cases hch

set_option maxRecDepth 100000 in
/-- C12: the example criteria (issuer, owner URI, predicate type and exact SAN
set, everything else empty) are accepted by `Valid`, and their rendering is the
header followed by exactly four lines: predicate type, issuer, owner URI and SAN
exact match, with no runner-environment line and no repository-URI line. -/
theorem exampleCriteria_four_lines :
    exampleCriteria.Valid = none ∧
    exampleCriteria.BuildPolicyInformation =
      "\nThe following policy criteria will be enforced against all attestations:" ++
      "\n- Attestation predicate type must match https://slsa.dev/provenance/v1" ++
      "\n- Attestation must be signed by a certificate whose OIDC issuer matches https://issuer.example" ++
      "\n- Attestation must be associated with an artifact built in an organization whose URI is https://github.com/acme" ++
      "\n- Attestation's signing certificate must have a Subject Alternative Name matching the exact value https://github.com/acme/repo/.github/workflows/build.yml@refs/heads/main" ∧
    exampleCriteria.BuildPolicyInformation = renderLines (policyLines exampleCriteria) ∧
    policyLines exampleCriteria =
      [headerLine,
        predicateTypeLine "https://slsa.dev/provenance/v1",
        issuerLine "https://issuer.example",
        ownerURILine "https://github.com/acme",
        sanExactLine "https://github.com/acme/repo/.github/workflows/build.yml@refs/heads/main"] ∧
    (policyLines exampleCriteria).tail.length = 4 ∧
    exampleCriteria.BuildPolicyInformation.data.count '\n' = 5 ∧
    hostedRunnerLine ∉ policyLines exampleCriteria ∧
    repositoryURILine exampleCriteria.Certificate.SourceRepositoryURI ∉
      policyLines exampleCriteria := by
  refine ⟨by decide, by decide, by decide, by decide, by decide, by decide, by decide, by decide⟩

/-- C13: `SAN` takes precedence over `SANRegex` and setting both is no error. With
both non-empty, `Valid` does not fail on the SAN/SANRegex condition (it returns no
error when the other four conditions hold), and the rendering ends with the
exact-match line carrying `SAN`, appended to the text built from the other
fields; no regex line is written, though the regex line would be written were
`SAN` empty. -/
theorem SAN_precedence (c : EnforcementCriteria) (hSAN : c.SAN ≠ "")
    (hRegex : c.SANRegex ≠ "") :
    c.Valid ≠ some "SANRegex or SAN must be set" ∧
    (requirement c 1 → requirement c 2 → requirement c 3 → requirement c 4 → c.Valid = none) ∧
    c.BuildPolicyInformation = renderLines (policyLines c) ∧
    c.BuildPolicyInformation =
      c.withoutSAN.BuildPolicyInformation ++ "\n" ++ sanExactLine c.SAN ∧
    (policyLines c).getLast? = some (sanExactLine c.SAN) ∧
    sanRegexLine c.SANRegex ∉ policyLines c ∧
    (∀ r, sanRegexLine r ∉ policyLines c) ∧
    sanRegexLine c.SANRegex ∈ policyLines { c with SAN := "" } := by
  have hno : ∀ r, sanRegexLine r ∉ policyLines c := by
    intro r hmem
    exact hSAN ((policyLines_optional c _ hmem).2.2.2 (lineKind_lines r).2.2.2.2.2.2.2).1
  refine ⟨?_, ?_, BuildPolicyInformation_eq_renderLines c,
    (BuildPolicyInformation_san_step c).1 hSAN, policyLines_getLast_sanExact c hSAN,
    hno _, hno, ?_⟩
  · intro h
    unfold EnforcementCriteria.Valid at h
    split_ifs at h with h1 h2 h3 h4 h5
    · exact absurd h (by decide)
    · exact absurd h (by decide)
    · exact absurd h (by decide)
    · exact absurd h (by decide)
    · exact hSAN h5.2
  · intro h1 h2 h3 h4
    exact Valid_none_of_guards c h1 h2 h3 h4 (Or.inr hSAN)
  · exact (mem_policyLines_iff _ _).2
      (Or.inr (Or.inr (Or.inr (Or.inr (Or.inr (Or.inr (Or.inr ⟨rfl, hRegex, rfl⟩)))))))

/-- Witness for C13: the example criteria with a regular expression set next to
the exact SAN. -/
theorem SAN_precedence_witness :
    ({ exampleCriteria with SANRegex := "^https://github.com/acme/" } : EnforcementCriteria).SAN
      ≠ "" ∧
    ({ exampleCriteria with SANRegex := "^https://github.com/acme/" } :
      EnforcementCriteria).SANRegex ≠ "" ∧
    EnforcementCriteria.Valid { exampleCriteria with SANRegex := "^https://github.com/acme/" } ≠
      some "SANRegex or SAN must be set" ∧
    sanRegexLine "^https://github.com/acme/" ∉
      policyLines { exampleCriteria with SANRegex := "^https://github.com/acme/" } :=
  ⟨by decide, by decide,
    (SAN_precedence { exampleCriteria with SANRegex := "^https://github.com/acme/" }
      (by decide) (by decide)).1,
    (SAN_precedence { exampleCriteria with SANRegex := "^https://github.com/acme/" }
      (by decide) (by decide)).2.2.2.2.2.1⟩

/-- The rendering ends with its last written line, which is not empty. -/
theorem BuildPolicyInformation_ends_with_last (c : EnforcementCriteria) :
    ∃ init last, policyLines c = init ++ [last] ∧ last ≠ "" ∧
      c.BuildPolicyInformation = renderLines init ++ "\n" ++ last ∧
      c.BuildPolicyInformation.data.getLast? = last.data.getLast? := by
  have heq := BuildPolicyInformation_eq_renderLines c
  have hne : policyLines c ≠ [] := by
    unfold policyLines
    simp
  have hlast : (policyLines c).getLast hne ≠ "" :=
    policyLines_ne_empty c _ (List.getLast_mem hne)
  have hend : c.BuildPolicyInformation =
      renderLines (policyLines c).dropLast ++ "\n" ++ (policyLines c).getLast hne := by
    rw [heq]
    conv_lhs => rw [← List.dropLast_append_getLast hne]
    rw [renderLines_append, String.append_assoc]
    simp only [renderLines, String.append_empty]
  refine ⟨(policyLines c).dropLast, (policyLines c).getLast hne,
    (List.dropLast_append_getLast hne).symm, hlast, hend, ?_⟩
  have hdata : ((policyLines c).getLast hne).data ≠ [] := by
    intro hnil
    exact hlast (String.ext hnil)
  rw [hend, String.data_append, List.getLast?_append_of_ne_nil _ hdata]

/-- The last written line is the owner-URI line or one of the optional lines. -/
theorem policyLines_getLast_cases (c : EnforcementCriteria) :
    (policyLines c).getLast? = some (ownerURILine c.Certificate.SourceRepositoryOwnerURI) ∨
    (policyLines c).getLast? = some (repositoryURILine c.Certificate.SourceRepositoryURI) ∨
    (policyLines c).getLast? = some hostedRunnerLine ∨
    (policyLines c).getLast? = some (sanExactLine c.SAN) ∨
    (policyLines c).getLast? = some (sanRegexLine c.SANRegex) := by
  unfold policyLines
  by_cases h1 : c.Certificate.SourceRepositoryURI = "" <;>
  by_cases h2 : c.Certificate.RunnerEnvironment = "github-hosted" <;>
  by_cases h3 : c.SAN = "" <;>
  by_cases h4 : c.SANRegex = "" <;>
  simp [h1, h2, h3, h4]

/-- A fixed opening text and a value that do not end in a line break, put
together, do not end in a line break. -/
theorem getLast_append_ne_newline (opening value : String)
    (ho : opening.data.getLast? ≠ some '\n') (hv : value.data.getLast? ≠ some '\n') :
    (opening ++ value).data.getLast? ≠ some '\n' := by
  rw [String.data_append, List.getLast?_append]
  cases hval : value.data.getLast? with
  | none => simpa using ho
  | some ch =>
    rw [hval] at hv
    simpa using hv

/-- C15, as stated, fails: the criteria `trailingNewlineCriteria` are accepted by
`Valid`, their `SAN` ends in a line break, and the output text ends in a line
break. -/
theorem BuildPolicyInformation_layout_counterexample :
    trailingNewlineCriteria.Valid = none ∧
    trailingNewlineCriteria.BuildPolicyInformation.data.getLast? = some '\n' := by
  refine ⟨by decide, ?_⟩
  decide

/-- C15 (amended): for every criteria, valid or not, the rendering is the
concatenation, in this order, of a line break and the header, the predicate-type
line, the issuer line, the owner-URI line, then the optional repository-URI line,
the optional hosted-runner line and the optional SAN line (exact, else regex),
each preceded by a line break. The three always-present lines are written for
every input, and no line break is appended after the last line: the text ends
with its last line, so its last character is the last character of that line,
and the output has no trailing line break when the owner URI, the repository
URI, `SAN` and `SANRegex` do not end in one. -/
theorem BuildPolicyInformation_layout (c : EnforcementCriteria) :
    c.BuildPolicyInformation =
      "\n" ++ headerLine ++
      "\n" ++ predicateTypeLine c.PredicateType ++
      "\n" ++ issuerLine c.Certificate.Issuer ++
      "\n" ++ ownerURILine c.Certificate.SourceRepositoryOwnerURI ++
      (if c.Certificate.SourceRepositoryURI ≠ "" then
        "\n" ++ repositoryURILine c.Certificate.SourceRepositoryURI else "") ++
      (if c.Certificate.RunnerEnvironment = "github-hosted" then
        "\n" ++ hostedRunnerLine else "") ++
      (if c.SAN ≠ "" then "\n" ++ sanExactLine c.SAN
        else if c.SANRegex ≠ "" then "\n" ++ sanRegexLine c.SANRegex else "") ∧
    c.BuildPolicyInformation = renderLines (policyLines c) ∧
    (policyLines c).take 4 =
      [headerLine, predicateTypeLine c.PredicateType, issuerLine c.Certificate.Issuer,
        ownerURILine c.Certificate.SourceRepositoryOwnerURI] ∧
    (∃ init last, policyLines c = init ++ [last] ∧ last ≠ "" ∧
      c.BuildPolicyInformation = renderLines init ++ "\n" ++ last ∧
      c.BuildPolicyInformation.data.getLast? = last.data.getLast?) ∧
    ((∀ f ∈ [c.Certificate.SourceRepositoryOwnerURI, c.Certificate.SourceRepositoryURI, c.SAN,
        c.SANRegex], f.data.getLast? ≠ some '\n') →
      c.BuildPolicyInformation.data.getLast? ≠ some '\n') := by
  have heq := BuildPolicyInformation_eq_renderLines c
  refine ⟨?_, heq, rfl, BuildPolicyInformation_ends_with_last c, ?_⟩
  · rw [heq]
    unfold policyLines
    by_cases h1 : c.Certificate.SourceRepositoryURI = "" <;>
    by_cases h2 : c.Certificate.RunnerEnvironment = "github-hosted" <;>
    by_cases h3 : c.SAN = "" <;>
    by_cases h4 : c.SANRegex = "" <;>
    simp only [h1, h2, h3, h4, ne_eq, not_true_eq_false, not_false_eq_true, if_true, if_false,
      List.append_nil, List.cons_append, List.nil_append, renderLines, String.append_assoc,
      String.append_empty]
  · intro hf
    obtain ⟨init, last, hpl, -, -, hchar⟩ := BuildPolicyInformation_ends_with_last c
    have hl : (policyLines c).getLast? = some last := by
      rw [hpl]
      simp
    rw [hchar]
    rcases policyLines_getLast_cases c with h | h | h | h | h <;> rw [hl] at h <;>
      cases h
    · exact getLast_append_ne_newline _ _ (by decide) (hf _ (by simp))
    · exact getLast_append_ne_newline _ _ (by decide) (hf _ (by simp))
    · decide
    · exact getLast_append_ne_newline _ _ (by decide) (hf _ (by simp))
    · exact getLast_append_ne_newline _ _ (by decide) (hf _ (by simp))

/-- Witness for C15 (amended): no field of the example criteria ends in a line
break, and their rendering does not end in one. -/
theorem BuildPolicyInformation_layout_witness :
    (∀ f ∈ [exampleCriteria.Certificate.SourceRepositoryOwnerURI,
        exampleCriteria.Certificate.SourceRepositoryURI, exampleCriteria.SAN,
        exampleCriteria.SANRegex], f.data.getLast? ≠ some '\n') ∧
    exampleCriteria.BuildPolicyInformation.data.getLast? ≠ some '\n' :=
  ⟨by decide, (BuildPolicyInformation_layout exampleCriteria).2.2.2.2 (by decide)⟩

/-- C16: the rendering does not re-validate. It is defined for every criteria as
the text of the lines `policyLines`; when `SAN` and `SANRegex` are both empty the
criteria are rejected by `Valid`, yet the rendering is still produced: it ends
after the owner-URI, repository-URI and hosted-runner lines, and no SAN line of
either kind is written. -/
theorem BuildPolicyInformation_without_san (c : EnforcementCriteria) :
    c.BuildPolicyInformation = renderLines (policyLines c) ∧
    (c.SAN = "" → c.SANRegex = "" →
      c.Valid ≠ none ∧
      policyLines c =
        [headerLine, predicateTypeLine c.PredicateType, issuerLine c.Certificate.Issuer,
          ownerURILine c.Certificate.SourceRepositoryOwnerURI] ++
        (if c.Certificate.SourceRepositoryURI ≠ "" then
          [repositoryURILine c.Certificate.SourceRepositoryURI] else []) ++
        (if c.Certificate.RunnerEnvironment = "github-hosted" then [hostedRunnerLine] else []) ∧
      (∀ s, sanExactLine s ∉ policyLines c ∧ sanRegexLine s ∉ policyLines c) ∧
      c.BuildPolicyInformation =
        "\n" ++ headerLine ++
        "\n" ++ predicateTypeLine c.PredicateType ++
        "\n" ++ issuerLine c.Certificate.Issuer ++
        "\n" ++ ownerURILine c.Certificate.SourceRepositoryOwnerURI ++
        (if c.Certificate.SourceRepositoryURI ≠ "" then
          "\n" ++ repositoryURILine c.Certificate.SourceRepositoryURI else "") ++
        (if c.Certificate.RunnerEnvironment = "github-hosted" then
          "\n" ++ hostedRunnerLine else "")) := by
  have heq := BuildPolicyInformation_eq_renderLines c
  refine ⟨heq, ?_⟩
  intro hSAN hRegex
  have hlines : policyLines c =
      [headerLine, predicateTypeLine c.PredicateType, issuerLine c.Certificate.Issuer,
        ownerURILine c.Certificate.SourceRepositoryOwnerURI] ++
      (if c.Certificate.SourceRepositoryURI ≠ "" then
        [repositoryURILine c.Certificate.SourceRepositoryURI] else []) ++
      (if c.Certificate.RunnerEnvironment = "github-hosted" then [hostedRunnerLine] else []) := by
    unfold policyLines
    simp [hSAN, hRegex]
  refine ⟨?_, hlines, ?_, ?_⟩
  · intro hvalid
    rcases san_set_of_Valid c hvalid with h | h
    · exact h hRegex
    · exact h hSAN
  · intro s
    constructor
    · intro hmem
      exact ((policyLines_optional c _ hmem).2.2.1 (lineKind_lines s).2.2.2.2.2.2.1).1 hSAN
    · intro hmem
      exact ((policyLines_optional c _ hmem).2.2.2 (lineKind_lines s).2.2.2.2.2.2.2).2.1 hRegex
  · rw [heq, hlines]
    by_cases h1 : c.Certificate.SourceRepositoryURI = "" <;>
    by_cases h2 : c.Certificate.RunnerEnvironment = "github-hosted" <;>
    simp only [h1, h2, ne_eq, not_true_eq_false, not_false_eq_true, if_true, if_false,
      List.append_nil, List.cons_append, List.nil_append, renderLines, String.append_assoc,
      String.append_empty]

/-- Witness for C16: the example criteria with `SAN` emptied are rejected by
`Valid` and rendered as the header and three lines, without a SAN line. -/
theorem BuildPolicyInformation_without_san_witness :
    EnforcementCriteria.Valid { exampleCriteria with SAN := "" } ≠ none ∧
    policyLines { exampleCriteria with SAN := "" } =
      [headerLine, predicateTypeLine "https://slsa.dev/provenance/v1",
        issuerLine "https://issuer.example", ownerURILine "https://github.com/acme"] :=
  ⟨((BuildPolicyInformation_without_san { exampleCriteria with SAN := "" }).2 rfl rfl).1,
    ((BuildPolicyInformation_without_san { exampleCriteria with SAN := "" }).2 rfl rfl).2.1⟩

/-! ## Lemmas: letter case in hex decoding -/

/-- Decoding depends on the input bytes only through their digit values. -/
theorem Decode_congr_values (bs : List Nat) : ∀ bs2 : List Nat,
    bs.map hex.reverseHexTable = bs2.map hex.reverseHexTable →
    ∀ out, hex.Decode bs = .ok out → hex.Decode bs2 = .ok out := by
  induction bs using list_induction_pairs with
  | h0 =>
    intro bs2 hmap out h
    cases bs2 with
    | nil => exact h
    | cons b bs2 => simp at hmap
  | h1 a =>
    intro bs2 _ out h
    simp only [hex.Decode] at h
    split_ifs at h
  | h2 p q rest ih =>
    intro bs2 hmap out h
    match bs2, hmap with
    | [], hmap => simp at hmap
    | [_], hmap => simp at hmap
    | p2 :: q2 :: rest2, hmap =>
      simp only [List.map_cons, List.cons.injEq] at hmap
      obtain ⟨hp, hq, hrest⟩ := hmap
      simp only [hex.Decode] at h ⊢
      rw [← hp, ← hq]
      split_ifs at h ⊢ with h1 h2
      cases hdec : hex.Decode rest with
      | error e => rw [hdec] at h; cases h
      | ok out2 =>
        rw [hdec] at h
        rw [ih rest2 hrest out2 hdec]
        exact h

/-- The digit value of a hexadecimal character does not depend on its case. -/
theorem hexval_toLower (c : Char) (h : isHexChar c) : hexval c.toLower = hexval c := by
  simp only [isHexChar, List.mem_cons, List.mem_singleton, List.not_mem_nil, or_false] at h
  rcases h with h | h | h | h | h | h | h | h | h | h | h | h | h | h | h | h | h | h | h | h |
    h | h <;> subst h <;> decide

/-- The digit values of hexadecimal text, read through the lower-cased text. -/
theorem reverseHexTable_map_toLower (cs : List Char) (h : ∀ c ∈ cs, isHexChar c) :
    (cs.map Char.toNat).map hex.reverseHexTable = (cs.map Char.toLower).map hexval := by
  rw [List.map_map, List.map_map]
  apply List.map_congr_left
  intro c hc
  simp only [Function.comp_apply]
  rw [reverseHexTable_eq_hexval c (h c hc), hexval_toLower c (h c hc)]

/-! ## Theorems: letter case and the repository URI -/

/-- C17: hex decoding in `BuildDigestPolicyOption` is case-insensitive. For two
valid hex digests that are equal up to the case of their letters, and the same
algorithm identifier, it succeeds on both and builds the same predicate, from the
same raw bytes. -/
theorem BuildDigestPolicyOption_case_insensitive (a b : artifact.DigestedArtifact)
    (ha : ValidHex a.Digest) (hb : ValidHex b.Digest)
    (hcase : a.Digest.data.map Char.toLower = b.Digest.data.map Char.toLower)
    (halg : a.Algorithm = b.Algorithm) :
    ∃ decoded,
      BuildDigestPolicyOption a = .ok (verify.WithArtifactDigest a.Algorithm decoded) ∧
      BuildDigestPolicyOption b = .ok (verify.WithArtifactDigest a.Algorithm decoded) := by
  obtain ⟨decoded, hdec⟩ := (Decode_ok_iff _).2 ((validHex_iff_bytes _).1 ha)
  have hvalues : (bytesOf a.Digest).map hex.reverseHexTable =
      (bytesOf b.Digest).map hex.reverseHexTable := by
    rw [bytesOf_hexChars _ ha.2, bytesOf_hexChars _ hb.2, reverseHexTable_map_toLower _ ha.2,
      reverseHexTable_map_toLower _ hb.2, hcase]
  have hdec2 := Decode_congr_values _ _ hvalues decoded hdec
  exact ⟨decoded, (BuildDigestPolicyOption_ok_iff a _).2 ⟨decoded, hdec, rfl⟩,
    (BuildDigestPolicyOption_ok_iff b _).2 ⟨decoded, hdec2, by rw [halg]⟩⟩

/-- Witness for C17: the digests `deadbeef` and `DEADbeef` under `sha256`. -/
theorem BuildDigestPolicyOption_case_insensitive_witness :
    ValidHex "deadbeef" ∧ ValidHex "DEADbeef" ∧ ("deadbeef" : String) ≠ "DEADbeef" ∧
    ∃ decoded,
      BuildDigestPolicyOption ⟨"deadbeef", "sha256"⟩ =
        .ok (verify.WithArtifactDigest "sha256" decoded) ∧
      BuildDigestPolicyOption ⟨"DEADbeef", "sha256"⟩ =
        .ok (verify.WithArtifactDigest "sha256" decoded) :=
  ⟨by decide, by decide, by decide,
    BuildDigestPolicyOption_case_insensitive ⟨"deadbeef", "sha256"⟩ ⟨"DEADbeef", "sha256"⟩
      (by decide) (by decide) (by decide) rfl⟩

/-- C18: the result of `Valid` does not depend on `Certificate.SourceRepositoryURI`:
two criteria that agree on the issuer, the runner environment, the owner URI, the
predicate type, `SAN` and `SANRegex` yield the same result, be it no error or the
same error message. -/
theorem Valid_independent_of_repositoryURI (c d : EnforcementCriteria)
    (hIssuer : c.Certificate.Issuer = d.Certificate.Issuer)
    (hRunner : c.Certificate.RunnerEnvironment = d.Certificate.RunnerEnvironment)
    (hOwner : c.Certificate.SourceRepositoryOwnerURI = d.Certificate.SourceRepositoryOwnerURI)
    (hPredicate : c.PredicateType = d.PredicateType)
    (hSAN : c.SAN = d.SAN) (hRegex : c.SANRegex = d.SANRegex) :
    c.Valid = d.Valid := by
  unfold EnforcementCriteria.Valid
  rw [hIssuer, hRunner, hOwner, hPredicate, hSAN, hRegex]

/-- Witness for C18: the example criteria without and with a repository URI
yield the same result. -/
theorem Valid_independent_of_repositoryURI_witness :
    exampleCriteria.Valid =
      EnforcementCriteria.Valid
        { exampleCriteria with
          Certificate := { exampleCriteria.Certificate with
            SourceRepositoryURI := "https://github.com/acme/repo" } } ∧
    exampleCriteria.Certificate.SourceRepositoryURI ≠ "https://github.com/acme/repo" :=
  ⟨Valid_independent_of_repositoryURI exampleCriteria
      { exampleCriteria with
        Certificate := { exampleCriteria.Certificate with
          SourceRepositoryURI := "https://github.com/acme/repo" } }
      rfl rfl rfl rfl rfl rfl,
    by decide⟩

end verification
